import Mathlib

/-!
Verification of `deadline.client.job_bundle.create_job_history_bundle_dir`
(`src/src/deadline/client/job_bundle/__init__.py`), the job-bundle history
directory allocator.  The function is embedded shallowly: the filesystem is
the list of existing directory paths (in creation order), the environment
(configured history root, clock tags, platform test, separator, `abspath`)
is an explicit `Config`, and the Python exceptions become an error type.
Line numbers in doc comments refer to the source file above.
-/

namespace JobBundle

/-- `char.isalnum() or char in " -_"` (lines 34-35 and line 70): the character
filter used to clean the submitter and job names.  `str.isalnum` is modelled
on its ASCII fragment (the characters relevant to every claim — separators,
dots, punctuation — are classified identically). -/
def keepChar (c : Char) : Bool :=
  c.isAlphanum || c == ' ' || c == '-' || c == '_'

/-- `"".join(char for char in s if char.isalnum() or char in " -_")`
(lines 34-36 and line 70): keeps exactly the allowed characters of `s`,
in their original order. -/
def sanitizeName (s : String) : String := ⟨s.data.filter keepChar⟩

/-- Python `f"{n:02}"` (line 53): the decimal representation of `n`,
left-padded with `'0'` to width 2; values of three or more digits widen the
field and are rendered unpadded. -/
def fmt2 (n : Nat) : String := if n < 10 then "0" ++ Nat.repr n else Nat.repr n

/-- Python `int(s)` (line 51) on the inputs this module feeds it: succeeds on
a nonempty string of ASCII digits, fails (`ValueError`) otherwise.  (Python's
`int` additionally tolerates surrounding whitespace, a sign and `_` digit
separators; no string this development evaluates the parse on is of those
shapes, so the model and `int` agree on every parse performed here.) -/
def pyInt (s : String) : Option Nat :=
  if !s.data.isEmpty && s.data.all (·.isDigit) then
    some (s.data.foldl (fun acc c => acc * 10 + (c.toNat - 48)) 0)
  else none

/-- Python slicing `s[:n]`: the first `n` characters of `s`. -/
def strTake (s : String) (n : Nat) : String := ⟨s.data.take n⟩

/-- Python slicing `s[n:]`: `s` without its first `n` characters. -/
def strDrop (s : String) (n : Nat) : String := ⟨s.data.drop n⟩

/-- The longest prefix of `s` whose characters satisfy `p` (used to model
`s.split("-", 1)[0]`, the part of `s` before its first `"-"`). -/
def strTakeWhile (s : String) (p : Char → Bool) : String := ⟨s.data.takeWhile p⟩

/-- Python string comparison `a < b` on the underlying character lists:
code-point lexicographic order (a proper prefix is smaller). -/
def strLtB : List Char → List Char → Bool
  | _, [] => false
  | [], _ :: _ => true
  | a :: as, b :: bs =>
    if a.toNat < b.toNat then true
    else if b.toNat < a.toNat then false
    else strLtB as bs

/-- Python `a < b` on strings. -/
def pyStrLt (a b : String) : Prop := strLtB a.data b.data = true

instance : DecidableRel pyStrLt := fun a b => by
  unfold pyStrLt
  infer_instance

/-- The non-strict order `a ≤ b` induced by `pyStrLt`, the order in which
`sorted` arranges its output. -/
def pyStrLe (a b : String) : Prop := ¬ pyStrLt b a

instance : DecidableRel pyStrLe := fun a b => by
  unfold pyStrLe
  infer_instance

/-- Python `sorted` (line 48).  CPython's sort is a stable comparison sort,
and the output of a stable sort is uniquely determined by the comparison and
the input order, so any stable sort is a faithful model; insertion sort on
`pyStrLe` is stable and structurally recursive (hence computable by the
kernel). -/
def pySorted (l : List String) : List String := l.insertionSort pyStrLe

/-- The path separator as a one-character string. -/
def sepStr (sep : Char) : String := ⟨[sep]⟩

/-- `os.path.join(a, b)` (POSIX semantics): `b` when `b` is absolute,
otherwise `a`, then a separator unless `a` is empty or already ends in one,
then `b`. -/
def pathJoin (sep : Char) (a b : String) : String :=
  if (sepStr sep).data.isPrefixOf b.data then b
  else if a = "" ∨ a.data.getLast? = some sep then a ++ b
  else a ++ sepStr sep ++ b

/-- `os.path.isabs` (POSIX): the path begins with the separator. -/
def pyIsAbs (sep : Char) (s : String) : Bool := (sepStr sep).data.isPrefixOf s.data

/-- `os.path.dirname` (POSIX, on the normalized separator-single paths this
module builds): everything before the last separator; `""` when there is no
separator; the root when the last separator is the leading character. -/
def pyDirname (sep : Char) (s : String) : String :=
  match s.data.reverse.dropWhile (fun c => c != sep) with
  | [] => ""
  | [_] => sepStr sep
  | _ :: rest => ⟨rest.reverse⟩

/-- `os.path.basename` (POSIX): everything after the last separator. -/
def pyBasename (sep : Char) (s : String) : String :=
  ⟨(s.data.reverse.takeWhile (fun c => c != sep)).reverse⟩

/-- `os.makedirs(s)` (lines 44 and 74): first ensures the parent directory
exists (recursively), then creates `s` itself; the created directories are
appended in creation order.  `fuel` bounds the recursion depth; the parent of
a path is always strictly shorter, so `s.length` fuel (see `pyMakedirs`) is
never exhausted. -/
def pyMakedirsAux (sep : Char) : Nat → List String → String → List String
  | 0, fs, s => fs ++ [s]
  | fuel + 1, fs, s =>
    let head := pyDirname sep s
    let fs' := if head ≠ "" ∧ head ≠ s ∧ fs.contains head = false
      then pyMakedirsAux sep fuel fs head else fs
    fs' ++ [s]

/-- `os.makedirs(s)`: see `pyMakedirsAux`. -/
def pyMakedirs (sep : Char) (fs : List String) (s : String) : List String :=
  pyMakedirsAux sep s.length fs s

/-- The environment a call runs in: the configured history root (the value of
`settings.job_history_dir` after `os.path.expanduser`, lines 30-31, both
environment collaborators), the two tags `strftime` renders from
`datetime.datetime.now()` (lines 38-40), the platform test
`sys.platform in ["win32", "cygwin"]` (line 60), the platform path separator,
and `os.path.abspath` (line 62), kept abstract (only its length is used). -/
structure Config where
  jobHistoryDir : String
  monthTag : String
  dateTag : String
  shortPathPlatform : Bool
  sep : Char
  abspath : String → String

/-- `month_dir = os.path.join(job_history_dir, month_tag)` (line 42). -/
def monthDirOf (cfg : Config) : String :=
  pathJoin cfg.sep cfg.jobHistoryDir cfg.monthTag

/-- The failure modes of a call: the explicit `RuntimeError` of lines 66-68,
the `ValueError` that `int` raises on line 51 on an ill-formed entry name,
and the `FileExistsError` that `os.makedirs` raises on line 74 when the
target directory already exists. -/
inductive AllocError where
  | pathTooLong
  | parseError
  | alreadyExists
deriving DecidableEq, Repr

/-- The names of the entries of directory `dir` existing in `fs`: paths of
the form `dir ++ sep ++ name` with `name` a nonempty separator-free
component. -/
def childNames (sep : Char) (fs : List String) (dir : String) : List String :=
  fs.filterMap (fun p =>
    if (dir ++ sepStr sep).data.isPrefixOf p.data ∧
        strDrop p (dir.length + 1) ≠ "" ∧
        (strDrop p (dir.length + 1)).data.contains sep = false then
      some (strDrop p (dir.length + 1))
    else none)

/-- The same-day entry names: the entries of the month bucket whose name
begins with `date_tag ++ "-"` (the names `glob`'s pattern
`f"{date_tag}-*"` matches on line 48; `*` also matches the empty string, and
matched names never begin with a dot, so glob's hidden-file rule is
vacuous). -/
def dayNames (cfg : Config) (fs : List String) : List String :=
  (childNames cfg.sep fs (monthDirOf cfg)).filter
    (fun n => (cfg.dateTag ++ "-").data.isPrefixOf n.data)

/-- `glob.glob(os.path.join(month_dir, f"{date_tag}-*"))` (line 48): the
matched entries as full paths. -/
def globDayPaths (cfg : Config) (fs : List String) : List String :=
  (dayNames cfg fs).map (fun n => pathJoin cfg.sep (monthDirOf cfg) n)

/-- Lines 46-51, the sequence scan: sort the same-day entries; if any exist,
parse the segment of the lexicographically last one between
`date_tag ++ "-"` and the next `"-"` (`.split("-", 1)[0]` of the name with
the first `len(date_tag) + 1` characters removed) and use one plus that
number; otherwise use `1`. -/
def nextNumberOf (cfg : Config) (fs : List String) : Except AllocError Nat :=
  let existing_dirs := pySorted (globDayPaths cfg fs)
  match existing_dirs.getLast? with
  | none => .ok 1
  | some latest_dir =>
    let seg := strTakeWhile (strDrop (pyBasename cfg.sep latest_dir) (cfg.dateTag.length + 1))
      (fun c => c != '-')
    match pyInt seg with
    | none => .error .parseError
    | some n => .ok (n + 1)

/-- `job_dir_prefix = f"{date_tag}-{number:02}-{submitter_name_cleaned}-"`
(line 53). -/
def jobDirPrefix0 (cfg : Config) (number : Nat) (submitterCleaned : String) : String :=
  cfg.dateTag ++ "-" ++ fmt2 number ++ "-" ++ submitterCleaned ++ "-"

/-- Lines 55-63: the job-name budget.  `128` (the OpenJD job-name maximum);
on `win32`/`cygwin` clamped by `207` minus the length of
`os.path.abspath(os.path.join(month_dir, job_dir_prefix))` — Python integer
arithmetic, so the value may be negative. -/
def maxJobNameBudget (cfg : Config) (number : Nat) (submitterCleaned : String) : Int :=
  if cfg.shortPathPlatform then
    min (207 -
      ((cfg.abspath (pathJoin cfg.sep (monthDirOf cfg)
        (jobDirPrefix0 cfg number submitterCleaned))).length : Int)) 128
  else 128

/-- `create_job_history_bundle_dir(submitter_name, job_name)` (lines 21-75)
over explicit environment `cfg` and filesystem `fs`: clean the submitter
name; ensure the month bucket exists; run the sequence scan; on
`win32`/`cygwin` fail with `RuntimeError` when the job-name budget is below
one; clean and truncate the job name; create and return the assembled
directory.  Returns the filesystem after the call together with the returned
path or raised error.  `ensureMonthDir` is lines 42-44: create
`month_dir` when `os.path.isdir` says it is missing. -/
def ensureMonthDir (cfg : Config) (fs : List String) : List String :=
  if fs.contains (monthDirOf cfg) then fs else pyMakedirs cfg.sep fs (monthDirOf cfg)

/-- `create_job_history_bundle_dir(submitter_name, job_name)` (lines 21-75)
over explicit environment `cfg` and filesystem `fs`. -/
def create_job_history_bundle_dir (cfg : Config) (fs : List String)
    (submitter_name job_name : String) : List String × Except AllocError String :=
  let submitter_name_cleaned := sanitizeName submitter_name
  let month_dir := monthDirOf cfg
  let fs1 := ensureMonthDir cfg fs
  match nextNumberOf cfg fs1 with
  | .error e => (fs1, .error e)
  | .ok number =>
    let job_dir_head := jobDirPrefix0 cfg number submitter_name_cleaned
    let budget := maxJobNameBudget cfg number submitter_name_cleaned
    if budget < 1 then (fs1, .error .pathTooLong)
    else
      let job_name_cleaned := strTake (sanitizeName job_name) budget.toNat
      let result := pathJoin cfg.sep month_dir (job_dir_head ++ job_name_cleaned)
      if fs1.contains result then (fs1, .error .alreadyExists)
      else (pyMakedirs cfg.sep fs1 result, .ok result)

/-- The directory name assembled on line 73 when the platform clamp is
inactive: the line-53 head followed by the sanitized job name truncated to
128 characters. -/
def entryNameOf (cfg : Config) (i : Nat) (sub job : String) : String :=
  jobDirPrefix0 cfg i (sanitizeName sub) ++ strTake (sanitizeName job) 128

/-- The corresponding full path. -/
def entryPathOf (cfg : Config) (i : Nat) (sub job : String) : String :=
  pathJoin cfg.sep (monthDirOf cfg) (entryNameOf cfg i sub job)

/-- The filesystem after `k` successive calls with the given per-call
submitter and job names, starting from `fs0`. -/
def callSeqFS (cfg : Config) (fs0 : List String) (names : Nat → String × String) :
    Nat → List String
  | 0 => fs0
  | k + 1 =>
    (create_job_history_bundle_dir cfg (callSeqFS cfg fs0 names k)
      (names k).1 (names k).2).1

/-- The outcome of call `k + 1` (zero-indexed `k`) of that call sequence. -/
def callResult (cfg : Config) (fs0 : List String) (names : Nat → String × String)
    (k : Nat) : Except AllocError String :=
  (create_job_history_bundle_dir cfg (callSeqFS cfg fs0 names k)
    (names k).1 (names k).2).2

/-- Well-formedness of the environment, as the real collaborators produce it:
the separator is a genuine path separator (not a character name sanitization
keeps), the `strftime` date tag contains no separator, and the month bucket
path is nonempty without a trailing separator. -/
structure GoodCfg (cfg : Config) : Prop where
  sepNotKept : keepChar cfg.sep = false
  dateTagSepFree : cfg.dateTag.data.contains cfg.sep = false
  monthDirNe : monthDirOf cfg ≠ ""
  monthDirNoTrail : (monthDirOf cfg).data.getLast? ≠ some cfg.sep

deriving instance DecidableEq for Except

/-- A concrete POSIX-style environment used by the concrete theorems below:
history root `"r"` (a relative path), January 2023 clock, a platform without
the short-path clamp, identity `abspath`. -/
def cfgDemo : Config :=
  { jobHistoryDir := "r", monthTag := "2023-01", dateTag := "2023-01-15",
    shortPathPlatform := false, sep := '/', abspath := id }

/-- `cfgDemo` on a `win32`-like platform. -/
def cfgWin : Config :=
  { cfgDemo with shortPathPlatform := true }

/-- `cfgDemo` with an absolute history root. -/
def cfgAbs : Config :=
  { cfgDemo with jobHistoryDir := "/r" }

/-- `cfgDemo` with a 250-character history root. -/
def cfgLongRoot : Config :=
  { cfgDemo with jobHistoryDir := ⟨List.replicate 250 'x'⟩ }

/-- The call sequence in which every call passes empty submitter and job
names. -/
def emptyNames : Nat → String × String := fun _ => ("", "")

end JobBundle

namespace JobBundle

/-! ### Sanitization lemmas -/

theorem sanitizeName_data (s : String) : (sanitizeName s).data = s.data.filter keepChar := rfl

theorem keepChar_of_mem_sanitize {c : Char} {s : String}
    (h : c ∈ (sanitizeName s).data) : keepChar c = true :=
  List.of_mem_filter h

theorem sanitize_contains_eq_false (s : String) (c : Char) (hc : keepChar c = false) :
    (sanitizeName s).data.contains c = false := by
  rw [Bool.eq_false_iff]
  intro h
  have hmem : c ∈ (sanitizeName s).data := List.elem_iff.mp h
  rw [keepChar_of_mem_sanitize hmem] at hc
  exact absurd hc (by decide)

/-- C4: sanitization, applied to both the submitter and the job name, keeps
exactly the alphanumeric, space, hyphen and underscore characters of its
input in their original order and drops every other character; consequently
no `/`, no `\` and no `.` (hence no `..`) survives, and the spec's two
path-traversal examples evaluate as stated. -/
theorem claim_C4_sanitization :
    (∀ s : String, (sanitizeName s).data = s.data.filter keepChar ∧
      (sanitizeName s).data.all keepChar = true ∧
      (sanitizeName s).data.contains '/' = false ∧
      (sanitizeName s).data.contains '\\' = false ∧
      (sanitizeName s).data.contains '.' = false) ∧
    sanitizeName "\\..\\..\\..\\SubmitterThree" = "SubmitterThree" ∧
    sanitizeName "./../../Job/Three" = "JobThree" := by
  refine ⟨fun s => ⟨rfl, ?_, ?_, ?_, ?_⟩, by decide, by decide⟩
  · exact List.all_eq_true.mpr fun c hc => keepChar_of_mem_sanitize hc
  · exact sanitize_contains_eq_false s '/' (by decide)
  · exact sanitize_contains_eq_false s '\\' (by decide)
  · exact sanitize_contains_eq_false s '.' (by decide)

/-- C8: sanitization is idempotent: sanitizing an already-sanitized string
returns it unchanged. -/
theorem claim_C8_idempotent (s : String) :
    sanitizeName (sanitizeName s) = sanitizeName s := by
  apply String.ext
  simp [sanitizeName, List.filter_filter]

/-! ### Generic list and string helpers -/

theorem not_mem_of_contains_eq_false {α : Type} [BEq α] [LawfulBEq α] {l : List α} {c : α}
    (h : l.contains c = false) : c ∉ l := by
  intro hm
  have h2 : l.contains c = true := List.elem_iff.mpr hm
  rw [h2] at h
  simp at h

theorem strLength (s : String) : s.length = s.data.length := rfl

theorem mk_length (l : List Char) : (String.mk l).length = l.length := rfl

theorem length_dropWhile_le' (p : Char → Bool) (l : List Char) :
    (l.dropWhile p).length ≤ l.length := by
  induction l with
  | nil => simp
  | cons c t ih => by_cases h : p c <;> simp [List.dropWhile_cons, h] <;> omega

/-! ### Filesystem (`os.makedirs`) lemmas -/

theorem mem_pyMakedirsAux_self (sep : Char) (fuel : Nat) (fs : List String) (s : String) :
    s ∈ pyMakedirsAux sep fuel fs s := by
  cases fuel <;> simp [pyMakedirsAux]

theorem prefix_pyMakedirsAux (sep : Char) (fuel : Nat) :
    ∀ (fs : List String) (s : String), fs <+: pyMakedirsAux sep fuel fs s := by
  induction fuel with
  | zero => exact fun fs s => List.prefix_append fs [s]
  | succ fuel ih =>
    intro fs s
    by_cases hC : pyDirname sep s ≠ "" ∧ pyDirname sep s ≠ s ∧
        fs.contains (pyDirname sep s) = false
    · simp only [pyMakedirsAux, if_pos hC]
      exact (ih fs (pyDirname sep s)).trans (List.prefix_append _ _)
    · simp only [pyMakedirsAux, if_neg hC]
      exact List.prefix_append fs [s]

theorem pyMakedirsAux_eq_append_single (sep : Char) (fuel : Nat) (fs : List String)
    (s : String)
    (h : ¬ (pyDirname sep s ≠ "" ∧ pyDirname sep s ≠ s ∧
      fs.contains (pyDirname sep s) = false)) :
    pyMakedirsAux sep fuel fs s = fs ++ [s] := by
  cases fuel
  · rfl
  · simp only [pyMakedirsAux, if_neg h]

theorem pyDirname_length_le (sep : Char) (s : String) :
    (pyDirname sep s).length ≤ s.length := by
  have hlen := length_dropWhile_le' (fun c => c != sep) s.data.reverse
  rw [List.length_reverse] at hlen
  unfold pyDirname
  revert hlen
  generalize s.data.reverse.dropWhile (fun c => c != sep) = d
  intro hlen
  rcases d with _ | ⟨c, _ | ⟨c2, rest2⟩⟩
  · exact Nat.zero_le _
  · show 1 ≤ s.data.length
    simpa using hlen
  · show (c2 :: rest2).reverse.length ≤ s.data.length
    rw [List.length_reverse]
    simp only [List.length_cons] at hlen ⊢
    omega

theorem mem_pyMakedirsAux (sep : Char) (fuel : Nat) :
    ∀ (fs : List String) (s x : String), x ∈ pyMakedirsAux sep fuel fs s →
      x ∈ fs ∨ x.length ≤ s.length := by
  induction fuel with
  | zero =>
    intro fs s x hx
    rcases List.mem_append.mp hx with h | h
    · exact Or.inl h
    · simp only [List.mem_singleton] at h
      exact Or.inr (h ▸ le_refl _)
  | succ fuel ih =>
    intro fs s x hx
    by_cases hC : pyDirname sep s ≠ "" ∧ pyDirname sep s ≠ s ∧
        fs.contains (pyDirname sep s) = false
    · simp only [pyMakedirsAux, if_pos hC] at hx
      rcases List.mem_append.mp hx with h | h
      · rcases ih fs (pyDirname sep s) x h with h' | h'
        · exact Or.inl h'
        · exact Or.inr (h'.trans (pyDirname_length_le sep s))
      · simp only [List.mem_singleton] at h
        exact Or.inr (h ▸ le_refl _)
    · simp only [pyMakedirsAux, if_neg hC] at hx
      rcases List.mem_append.mp hx with h | h
      · exact Or.inl h
      · simp only [List.mem_singleton] at h
        exact Or.inr (h ▸ le_refl _)

theorem mem_ensureMonthDir_self (cfg : Config) (fs : List String) :
    monthDirOf cfg ∈ ensureMonthDir cfg fs := by
  unfold ensureMonthDir
  by_cases h : fs.contains (monthDirOf cfg)
  · rw [if_pos h]
    exact List.elem_iff.mp h
  · rw [if_neg h]
    exact mem_pyMakedirsAux_self _ _ _ _

theorem prefix_ensureMonthDir (cfg : Config) (fs : List String) :
    fs <+: ensureMonthDir cfg fs := by
  unfold ensureMonthDir
  by_cases h : fs.contains (monthDirOf cfg)
  · rw [if_pos h]
  · rw [if_neg h]
    exact prefix_pyMakedirsAux _ _ _ _

/-! ### `os.path` lemmas -/

theorem pyIsAbs_append (sep : Char) (a b : String) (h : pyIsAbs sep a = true) :
    pyIsAbs sep (a ++ b) = true := by
  unfold pyIsAbs at h ⊢
  rw [List.isPrefixOf_iff_prefix] at h ⊢
  rw [String.data_append]
  exact h.trans (List.prefix_append a.data b.data)

theorem pyIsAbs_pathJoin (sep : Char) (a b : String) (h : pyIsAbs sep a = true) :
    pyIsAbs sep (pathJoin sep a b) = true := by
  unfold pathJoin
  by_cases h1 : (sepStr sep).data.isPrefixOf b.data
  · rw [if_pos h1]
    exact h1
  · rw [if_neg h1]
    by_cases h2 : a = "" ∨ a.data.getLast? = some sep
    · rw [if_pos h2]
      exact pyIsAbs_append sep a b h
    · rw [if_neg h2]
      exact pyIsAbs_append sep _ b (pyIsAbs_append sep a _ h)

theorem suffix_data_pathJoin (sep : Char) (a b : String) :
    b.data <:+ (pathJoin sep a b).data := by
  unfold pathJoin
  by_cases h1 : (sepStr sep).data.isPrefixOf b.data
  · rw [if_pos h1]
  · rw [if_neg h1]
    by_cases h2 : a = "" ∨ a.data.getLast? = some sep
    · rw [if_pos h2, String.data_append]
      exact List.suffix_append _ _
    · rw [if_neg h2, String.data_append]
      exact List.suffix_append _ _

theorem isInfix_append_left' {l m : List Char} (a : List Char) (h : l <:+: m) :
    l <:+: a ++ m := by
  rcases h with ⟨u, t, rfl⟩
  exact ⟨a ++ u, t, by simp⟩

/-! ### Dissection of the allocator -/

/-- `create_job_history_bundle_dir` written as one case split; equal to the
definition by unfolding. -/
theorem create_eq (cfg : Config) (fs : List String) (sub job : String) :
    create_job_history_bundle_dir cfg fs sub job =
      match nextNumberOf cfg (ensureMonthDir cfg fs) with
      | .error e => (ensureMonthDir cfg fs, .error e)
      | .ok number =>
        if maxJobNameBudget cfg number (sanitizeName sub) < 1 then
          (ensureMonthDir cfg fs, .error .pathTooLong)
        else
          if (ensureMonthDir cfg fs).contains
              (pathJoin cfg.sep (monthDirOf cfg)
                (jobDirPrefix0 cfg number (sanitizeName sub) ++
                  strTake (sanitizeName job)
                    (maxJobNameBudget cfg number (sanitizeName sub)).toNat)) then
            (ensureMonthDir cfg fs, .error .alreadyExists)
          else
            (pyMakedirs cfg.sep (ensureMonthDir cfg fs)
              (pathJoin cfg.sep (monthDirOf cfg)
                (jobDirPrefix0 cfg number (sanitizeName sub) ++
                  strTake (sanitizeName job)
                    (maxJobNameBudget cfg number (sanitizeName sub)).toNat)),
              .ok (pathJoin cfg.sep (monthDirOf cfg)
                (jobDirPrefix0 cfg number (sanitizeName sub) ++
                  strTake (sanitizeName job)
                    (maxJobNameBudget cfg number (sanitizeName sub)).toNat))) := rfl

theorem ok_dissect (cfg : Config) (fs : List String) (sub job p : String)
    (h : (create_job_history_bundle_dir cfg fs sub job).2 = .ok p) :
    ∃ n, nextNumberOf cfg (ensureMonthDir cfg fs) = .ok n ∧
      ¬ maxJobNameBudget cfg n (sanitizeName sub) < 1 ∧
      (ensureMonthDir cfg fs).contains p = false ∧
      p = pathJoin cfg.sep (monthDirOf cfg)
        (jobDirPrefix0 cfg n (sanitizeName sub) ++
          strTake (sanitizeName job) (maxJobNameBudget cfg n (sanitizeName sub)).toNat) ∧
      (create_job_history_bundle_dir cfg fs sub job).1 =
        pyMakedirs cfg.sep (ensureMonthDir cfg fs) p := by
  rw [create_eq] at h ⊢
  split at h
  · simp at h
  · rename_i number heq
    by_cases hb : maxJobNameBudget cfg number (sanitizeName sub) < 1
    · rw [if_pos hb] at h
      simp at h
    · rw [if_neg hb] at h
      by_cases hc : (ensureMonthDir cfg fs).contains
          (pathJoin cfg.sep (monthDirOf cfg)
            (jobDirPrefix0 cfg number (sanitizeName sub) ++
              strTake (sanitizeName job)
                (maxJobNameBudget cfg number (sanitizeName sub)).toNat)) = true
      · rw [if_pos hc] at h
        simp at h
      · rw [if_neg hc] at h
        have h2 : pathJoin cfg.sep (monthDirOf cfg)
            (jobDirPrefix0 cfg number (sanitizeName sub) ++
              strTake (sanitizeName job)
                (maxJobNameBudget cfg number (sanitizeName sub)).toNat) = p :=
          Except.ok.inj h
        subst h2
        refine ⟨number, heq, hb, ?_, rfl, ?_⟩
        · exact Bool.eq_false_iff.mpr hc
        · rw [if_neg hb, if_neg hc]

theorem callResult_eq (cfg : Config) (fs0 : List String) (names : Nat → String × String)
    (k : Nat) : callResult cfg fs0 names k =
      (create_job_history_bundle_dir cfg (callSeqFS cfg fs0 names k)
        (names k).1 (names k).2).2 := rfl

theorem alreadyExists_case (cfg : Config) (fs : List String) (sub job : String) (n : Nat)
    (hn : nextNumberOf cfg (ensureMonthDir cfg fs) = .ok n)
    (hb : ¬ maxJobNameBudget cfg n (sanitizeName sub) < 1)
    (hc : (ensureMonthDir cfg fs).contains
      (pathJoin cfg.sep (monthDirOf cfg)
        (jobDirPrefix0 cfg n (sanitizeName sub) ++
          strTake (sanitizeName job)
            (maxJobNameBudget cfg n (sanitizeName sub)).toNat)) = true) :
    (create_job_history_bundle_dir cfg fs sub job).2 = .error .alreadyExists := by
  rw [create_eq]
  simp only [hn]
  rw [if_neg hb, if_pos hc]

theorem isSuffix_append_left {l m : List Char} (a : List Char) (h : l <:+ m) :
    l <:+ a ++ m :=
  h.trans (List.suffix_append a m)

theorem take_empty_str (n : Nat) : strTake "" n = "" :=
  String.ext (by simp [strTake])

/-- C6 counterexample: with the (relative) configured root `"r"` a call
succeeds and returns `"r/2023-01/2023-01-15-01-s-j"`, which is not an
absolute path — the code never applies `abspath` to the result, so "for
every configured `settings.job_history_dir` value the returned string is
absolute" fails. -/
theorem claim_C6_counterexample :
    (create_job_history_bundle_dir cfgDemo ["r"] "s" "j").2 =
      .ok "r/2023-01/2023-01-15-01-s-j" ∧
    pyIsAbs cfgDemo.sep "r/2023-01/2023-01-15-01-s-j" = false := by
  constructor
  · decide
  · decide

/-- C6 (amended): every successful call returns the path of the freshly
created bundle directory — the path is in the filesystem on return and was
not in it before the call — and the returned path is absolute whenever the
expanded configured root is absolute. -/
theorem claim_C6_returned_path (cfg : Config) (fs : List String) (sub job p : String)
    (hok : (create_job_history_bundle_dir cfg fs sub job).2 = .ok p) :
    p ∈ (create_job_history_bundle_dir cfg fs sub job).1 ∧
    p ∉ fs ∧
    (pyIsAbs cfg.sep cfg.jobHistoryDir = true → pyIsAbs cfg.sep p = true) := by
  obtain ⟨n, hn, hb, hc, hp, h1⟩ := ok_dissect cfg fs sub job p hok
  refine ⟨?_, ?_, ?_⟩
  · rw [h1]
    exact mem_pyMakedirsAux_self _ _ _ _
  · intro hmem
    exact not_mem_of_contains_eq_false hc ((prefix_ensureMonthDir cfg fs).subset hmem)
  · intro habs
    rw [hp]
    exact pyIsAbs_pathJoin _ _ _ (pyIsAbs_pathJoin _ _ _ habs)

theorem claim_C6_witness :
    (create_job_history_bundle_dir cfgAbs ["/r"] "s" "j").2 =
      .ok "/r/2023-01/2023-01-15-01-s-j" ∧
    ("/r/2023-01/2023-01-15-01-s-j" ∈
        (create_job_history_bundle_dir cfgAbs ["/r"] "s" "j").1 ∧
      "/r/2023-01/2023-01-15-01-s-j" ∉ ["/r"] ∧
      (pyIsAbs cfgAbs.sep cfgAbs.jobHistoryDir = true →
        pyIsAbs cfgAbs.sep "/r/2023-01/2023-01-15-01-s-j" = true)) :=
  ⟨by decide, claim_C6_returned_path cfgAbs ["/r"] "s" "j" _ (by decide)⟩

/-- C9: a job name that is empty after sanitization is accepted, and the
allocated directory name then ends with the sanitized submitter name and its
trailing hyphen; a submitter name that sanitizes to the empty string is also
accepted and yields two adjacent hyphens in the directory name (no
de-duplication).  The two closed conjuncts exhibit accepting runs of both
edge cases. -/
theorem claim_C9_empty_names :
    (∀ (cfg : Config) (fs : List String) (sub job p : String),
        sanitizeName job = "" →
        (create_job_history_bundle_dir cfg fs sub job).2 = .ok p →
        (sanitizeName sub ++ "-").data <:+ p.data) ∧
    (∀ (cfg : Config) (fs : List String) (sub job p : String),
        sanitizeName sub = "" →
        (create_job_history_bundle_dir cfg fs sub job).2 = .ok p →
        ['-', '-'] <:+: p.data) ∧
    (create_job_history_bundle_dir cfgDemo
        ["r", "r/2023-01", "r/2023-01/2023-01-15-01-cli_job-Test CLI Job Name",
          "r/2023-01/2023-01-15-02-maya-Maya  Job with  Characters"] "cli_job" "").2 =
      .ok "r/2023-01/2023-01-15-03-cli_job-" ∧
    (create_job_history_bundle_dir cfgDemo ["r", "r/2023-01"] "" "JobOne").2 =
      .ok "r/2023-01/2023-01-15-01--JobOne" := by
  refine ⟨?_, ?_, by decide, by decide⟩
  · intro cfg fs sub job p hjob hok
    obtain ⟨n, hn, hb, hc, hp, h1⟩ := ok_dissect cfg fs sub job p hok
    subst hp
    refine List.IsSuffix.trans ?_ (suffix_data_pathJoin _ _ _)
    rw [hjob, take_empty_str]
    simp only [jobDirPrefix0, String.data_append, List.append_assoc, List.append_nil]
    exact isSuffix_append_left _ (isSuffix_append_left _ (isSuffix_append_left _
      (isSuffix_append_left _ (List.suffix_refl _))))
  · intro cfg fs sub job p hsub hok
    obtain ⟨n, hn, hb, hc, hp, h1⟩ := ok_dissect cfg fs sub job p hok
    subst hp
    refine List.IsInfix.trans ?_ (suffix_data_pathJoin _ _ _).isInfix
    rw [String.data_append]
    refine List.IsInfix.trans ?_ (List.prefix_append _ _).isInfix
    rw [hsub]
    refine ⟨cfg.dateTag.data ++ ('-' :: (fmt2 n).data), [], ?_⟩
    simp [jobDirPrefix0, String.data_append, List.append_assoc]

/-- C5 counterexample: when the configured root itself does not exist,
`os.makedirs` creates it too — here a single call creates three directories
(`"r"`, the month bucket and the bundle directory), and the extra one is
neither the month bucket nor the bundle directory, refuting "at most two
directories, the month bucket and the bundle directory". -/
theorem claim_C5_counterexample :
    (create_job_history_bundle_dir cfgDemo [] "s" "j").1 =
      ["r", "r/2023-01", "r/2023-01/2023-01-15-01-s-j"] ∧
    (create_job_history_bundle_dir cfgDemo [] "s" "j").2 =
      .ok "r/2023-01/2023-01-15-01-s-j" ∧
    ¬ (create_job_history_bundle_dir cfgDemo [] "s" "j").1.length ≤
        ([] : List String).length + 2 ∧
    "r" ≠ monthDirOf cfgDemo ∧ "r" ≠ "r/2023-01/2023-01-15-01-s-j" := by
  refine ⟨by decide, by decide, by decide, by decide, by decide⟩

/-! ### Digit and name well-formedness lemmas -/

theorem contains_eq_false_iff {α : Type} [BEq α] [LawfulBEq α] (l : List α) (c : α) :
    l.contains c = false ↔ c ∉ l := by
  constructor
  · exact not_mem_of_contains_eq_false
  · intro h
    cases hc : l.contains c
    · rfl
    · exact absurd (List.elem_iff.mp hc) h

theorem digitChar_isDigit : ∀ m, m < 10 → (Nat.digitChar m).isDigit = true := by decide

theorem strTake_data (s : String) (k : Nat) : (strTake s k).data = s.data.take k := rfl

theorem strDrop_data (s : String) (k : Nat) : (strDrop s k).data = s.data.drop k := rfl

theorem strTakeWhile_data (s : String) (p : Char → Bool) :
    (strTakeWhile s p).data = s.data.takeWhile p := rfl

theorem toDigitsCore_digits (fuel : Nat) :
    ∀ (n : Nat) (acc : List Char), (∀ c ∈ acc, c.isDigit = true) →
      ∀ c ∈ Nat.toDigitsCore 10 fuel n acc, c.isDigit = true := by
  induction fuel with
  | zero => exact fun n acc hacc => hacc
  | succ fuel ih =>
    intro n acc hacc c hc
    have hd : (Nat.digitChar (n % 10)).isDigit = true :=
      digitChar_isDigit _ (Nat.mod_lt n (by decide))
    simp only [Nat.toDigitsCore] at hc
    by_cases h : n / 10 = 0
    · rw [if_pos h] at hc
      rcases List.mem_cons.mp hc with h' | h'
      · exact h' ▸ hd
      · exact hacc c h'
    · rw [if_neg h] at hc
      refine ih (n / 10) _ ?_ c hc
      intro c' hc'
      rcases List.mem_cons.mp hc' with h' | h'
      · exact h' ▸ hd
      · exact hacc c' h'

theorem repr_digits (n : Nat) : ∀ c ∈ (Nat.repr n).data, c.isDigit = true := by
  intro c hc
  exact toDigitsCore_digits (n + 1) n [] (by simp) c hc

theorem fmt2_digits (n : Nat) : ∀ c ∈ (fmt2 n).data, c.isDigit = true := by
  intro c hc
  unfold fmt2 at hc
  by_cases h : n < 10
  · rw [if_pos h] at hc
    rw [String.data_append] at hc
    rcases List.mem_append.mp hc with h' | h'
    · simp only [List.mem_singleton.mp (by simpa using h')]
      decide
    · exact repr_digits n c h'
  · rw [if_neg h] at hc
    exact repr_digits n c hc

theorem not_kept_not_digit {c : Char} (h : keepChar c = false) : c.isDigit = false := by
  unfold keepChar Char.isAlphanum at h
  cases hd : c.isDigit
  · rfl
  · rw [hd] at h
    simp at h

theorem not_kept_ne_dash {c : Char} (h : keepChar c = false) : c ≠ '-' := by
  intro hc
  subst hc
  simp [keepChar] at h

/-- The separator does not occur in any directory name the allocator
assembles on line 73. -/
theorem sep_not_mem_name (cfg : Config) (hsep : keepChar cfg.sep = false)
    (hdt : cfg.dateTag.data.contains cfg.sep = false) (n k : Nat) (sub job : String) :
    (jobDirPrefix0 cfg n (sanitizeName sub) ++
      strTake (sanitizeName job) k).data.contains cfg.sep = false := by
  rw [contains_eq_false_iff]
  intro hmem
  simp only [jobDirPrefix0, strTake_data, String.data_append, List.mem_append] at hmem
  have hdash : cfg.sep ∉ ("-" : String).data := by
    intro h
    exact not_kept_ne_dash hsep (by simpa using h)
  have hfmt : cfg.sep ∉ (fmt2 n).data := by
    intro h
    have := fmt2_digits n cfg.sep h
    rw [not_kept_not_digit hsep] at this
    simp at this
  have hsan : ∀ t : String, cfg.sep ∉ (sanitizeName t).data := by
    intro t h
    rw [keepChar_of_mem_sanitize h] at hsep
    simp at hsep
  rcases hmem with (((((h | h) | h) | h) | h) | h) | h
  · exact not_mem_of_contains_eq_false hdt h
  · exact hdash h
  · exact hfmt h
  · exact hdash h
  · exact hsan sub h
  · exact hdash h
  · exact hsan job (List.take_subset _ _ h)

/-! ### Path shape lemmas -/

theorem head?_ne_of_not_mem {l : List Char} {c : Char} (h : c ∉ l) :
    l.head? ≠ some c := by
  cases l with
  | nil => simp
  | cons a t =>
    simp only [List.head?_cons, ne_eq, Option.some.injEq]
    intro hac
    exact h (hac ▸ List.mem_cons_self a t)

theorem pathJoin_eq_sep (sep : Char) (a b : String) (hb : b.data.head? ≠ some sep)
    (ha : ¬(a = "" ∨ a.data.getLast? = some sep)) :
    pathJoin sep a b = a ++ sepStr sep ++ b := by
  have h1 : ¬ (sepStr sep).data.isPrefixOf b.data = true := by
    intro h
    rw [List.isPrefixOf_iff_prefix] at h
    rcases h with ⟨t, ht⟩
    apply hb
    rw [← ht]
    rfl
  unfold pathJoin
  rw [if_neg h1, if_neg ha]

theorem data_pathJoin_sep (sep : Char) (a b : String) (hb : b.data.head? ≠ some sep)
    (ha : ¬(a = "" ∨ a.data.getLast? = some sep)) :
    (pathJoin sep a b).data = a.data ++ sep :: b.data := by
  rw [pathJoin_eq_sep sep a b hb ha, String.data_append, String.data_append]
  simp [sepStr]

theorem pyDirname_of_shape (sep : Char) (m n : String) (hm : m ≠ "")
    (hn : n.data.contains sep = false) (d : List Char)
    (hd : d = m.data ++ sep :: n.data) :
    pyDirname sep (String.mk d) = m := by
  subst hd
  unfold pyDirname
  have hrev : (m.data ++ sep :: n.data).reverse = n.data.reverse ++ sep :: m.data.reverse := by
    simp
  have hall : ∀ c ∈ n.data.reverse, (c != sep) = true := by
    intro c hc
    have : c ∈ n.data := List.mem_reverse.mp hc
    have hne : c ≠ sep := by
      intro he
      exact not_mem_of_contains_eq_false hn (he ▸ this)
    simpa using hne
  have hdw : (m.data ++ sep :: n.data).reverse.dropWhile (fun c => c != sep) =
      sep :: m.data.reverse := by
    rw [hrev, List.dropWhile_append]
    have h2 : n.data.reverse.dropWhile (fun c => c != sep) = [] :=
      List.dropWhile_eq_nil_iff.mpr hall
    rw [h2]
    simp only [List.isEmpty_nil, if_true]
    rw [List.dropWhile_cons_of_neg (by simp)]
  rw [show (String.mk (m.data ++ sep :: n.data)).data = m.data ++ sep :: n.data from rfl]
  rw [hdw]
  cases hmd : m.data.reverse with
  | nil =>
    exfalso
    apply hm
    apply String.ext
    simpa using congrArg List.reverse hmd
  | cons c rest =>
    apply String.ext
    show (c :: rest).reverse = m.data
    rw [← hmd, List.reverse_reverse]

theorem pyBasename_of_shape (sep : Char) (m n : String)
    (hn : n.data.contains sep = false) (d : List Char)
    (hd : d = m.data ++ sep :: n.data) :
    pyBasename sep (String.mk d) = n := by
  subst hd
  unfold pyBasename
  have hrev : (m.data ++ sep :: n.data).reverse = n.data.reverse ++ sep :: m.data.reverse := by
    simp
  have hall : ∀ c ∈ n.data.reverse, (c != sep) = true := by
    intro c hc
    have : c ∈ n.data := List.mem_reverse.mp hc
    have hne : c ≠ sep := by
      intro he
      exact not_mem_of_contains_eq_false hn (he ▸ this)
    simpa using hne
  apply String.ext
  show ((String.mk (m.data ++ sep :: n.data)).data.reverse.takeWhile
    (fun c => c != sep)).reverse = n.data
  rw [show (String.mk (m.data ++ sep :: n.data)).data = m.data ++ sep :: n.data from rfl]
  rw [hrev, List.takeWhile_append_of_pos hall, List.takeWhile_cons_of_neg (by simp)]
  simp


theorem mk_data (s : String) : String.mk s.data = s := rfl

theorem ensureMonthDir_cases (cfg : Config) (fs : List String)
    (hparent : pyDirname cfg.sep (monthDirOf cfg) = "" ∨
      pyDirname cfg.sep (monthDirOf cfg) = monthDirOf cfg ∨
      fs.contains (pyDirname cfg.sep (monthDirOf cfg)) = true) :
    ensureMonthDir cfg fs = fs ∨ ensureMonthDir cfg fs = fs ++ [monthDirOf cfg] := by
  unfold ensureMonthDir
  by_cases h : fs.contains (monthDirOf cfg)
  · rw [if_pos h]
    exact Or.inl rfl
  · rw [if_neg h]
    right
    unfold pyMakedirs
    apply pyMakedirsAux_eq_append_single
    intro hcon
    rcases hparent with h1 | h1 | h1
    · exact hcon.1 h1
    · exact hcon.2.1 h1
    · have h2 := hcon.2.2
      rw [h1] at h2
      simp at h2

theorem pyMakedirs_bundle (cfg : Config) (fs1 : List String) (hG : GoodCfg cfg)
    (name : String) (hname : name.data.contains cfg.sep = false)
    (hmem : monthDirOf cfg ∈ fs1) :
    pyMakedirs cfg.sep fs1 (pathJoin cfg.sep (monthDirOf cfg) name) =
      fs1 ++ [pathJoin cfg.sep (monthDirOf cfg) name] := by
  have ha : ¬(monthDirOf cfg = "" ∨ (monthDirOf cfg).data.getLast? = some cfg.sep) := by
    intro h
    rcases h with h | h
    · exact hG.monthDirNe h
    · exact hG.monthDirNoTrail h
  have hb : name.data.head? ≠ some cfg.sep :=
    head?_ne_of_not_mem (not_mem_of_contains_eq_false hname)
  have hdata := data_pathJoin_sep cfg.sep (monthDirOf cfg) name hb ha
  have hdir : pyDirname cfg.sep (pathJoin cfg.sep (monthDirOf cfg) name) =
      monthDirOf cfg := by
    rw [← mk_data (pathJoin cfg.sep (monthDirOf cfg) name)]
    exact pyDirname_of_shape cfg.sep (monthDirOf cfg) name hG.monthDirNe hname _ hdata
  unfold pyMakedirs
  apply pyMakedirsAux_eq_append_single
  intro hcon
  have h2 := hcon.2.2
  rw [hdir] at h2
  have h3 : fs1.contains (monthDirOf cfg) = true := List.elem_iff.mpr hmem
  rw [h3] at h2
  simp at h2

/-- C5 (amended): a call only appends newly created directories (existing
entries are never removed or modified), creates at most two directories
beyond any missing ancestors of the month bucket, and — when the month
bucket's parent chain already exists — every created directory is the month
bucket or the returned bundle directory, so at most two in total. -/
theorem claim_C5_created (cfg : Config) (fs : List String) (sub job : String)
    (hG : GoodCfg cfg)
    (hparent : pyDirname cfg.sep (monthDirOf cfg) = "" ∨
      pyDirname cfg.sep (monthDirOf cfg) = monthDirOf cfg ∨
      fs.contains (pyDirname cfg.sep (monthDirOf cfg)) = true) :
    fs <+: (create_job_history_bundle_dir cfg fs sub job).1 ∧
    (create_job_history_bundle_dir cfg fs sub job).1.length ≤ fs.length + 2 ∧
    ∀ d ∈ (create_job_history_bundle_dir cfg fs sub job).1,
      d ∈ fs ∨ d = monthDirOf cfg ∨
        (create_job_history_bundle_dir cfg fs sub job).2 = .ok d := by
  have hens := ensureMonthDir_cases cfg fs hparent
  have base : fs <+: ensureMonthDir cfg fs ∧
      (ensureMonthDir cfg fs).length ≤ fs.length + 1 ∧
      ∀ d ∈ ensureMonthDir cfg fs, d ∈ fs ∨ d = monthDirOf cfg := by
    rcases hens with hens | hens <;> rw [hens]
    · exact ⟨List.prefix_refl fs, by omega, fun d hd => Or.inl hd⟩
    · refine ⟨List.prefix_append fs _, by simp, fun d hd => ?_⟩
      rcases List.mem_append.mp hd with hd | hd
      · exact Or.inl hd
      · exact Or.inr (List.mem_singleton.mp hd)
  rw [create_eq]
  split
  · exact ⟨base.1, by
      show (ensureMonthDir cfg fs).length ≤ fs.length + 2
      have := base.2.1; omega, fun d hd => by
      rcases base.2.2 d hd with h | h
      · exact Or.inl h
      · exact Or.inr (Or.inl h)⟩
  · rename_i number heq
    by_cases hb : maxJobNameBudget cfg number (sanitizeName sub) < 1
    · rw [if_pos hb]
      exact ⟨base.1, by
        show (ensureMonthDir cfg fs).length ≤ fs.length + 2
        have := base.2.1; omega, fun d hd => by
        rcases base.2.2 d hd with h | h
        · exact Or.inl h
        · exact Or.inr (Or.inl h)⟩
    · rw [if_neg hb]
      by_cases hc : (ensureMonthDir cfg fs).contains
          (pathJoin cfg.sep (monthDirOf cfg)
            (jobDirPrefix0 cfg number (sanitizeName sub) ++
              strTake (sanitizeName job)
                (maxJobNameBudget cfg number (sanitizeName sub)).toNat)) = true
      · rw [if_pos hc]
        exact ⟨base.1, by
          show (ensureMonthDir cfg fs).length ≤ fs.length + 2
          have := base.2.1; omega, fun d hd => by
          rcases base.2.2 d hd with h | h
          · exact Or.inl h
          · exact Or.inr (Or.inl h)⟩
      · rw [if_neg hc]
        have hone := pyMakedirs_bundle cfg (ensureMonthDir cfg fs) hG
          (jobDirPrefix0 cfg number (sanitizeName sub) ++
            strTake (sanitizeName job)
              (maxJobNameBudget cfg number (sanitizeName sub)).toNat)
          (sep_not_mem_name cfg hG.sepNotKept hG.dateTagSepFree number _ sub job)
          (mem_ensureMonthDir_self cfg fs)
        refine ⟨?_, ?_, ?_⟩
        · show fs <+: pyMakedirs cfg.sep (ensureMonthDir cfg fs) _
          rw [hone]
          exact base.1.trans (List.prefix_append _ _)
        · show (pyMakedirs cfg.sep (ensureMonthDir cfg fs) _).length ≤ fs.length + 2
          rw [hone]
          have := base.2.1
          simp only [List.length_append, List.length_singleton]
          omega
        · intro d hd
          rw [show (pyMakedirs cfg.sep (ensureMonthDir cfg fs) _, Except.ok _).1 =
            pyMakedirs cfg.sep (ensureMonthDir cfg fs) _ from rfl] at hd
          rw [hone] at hd
          rcases List.mem_append.mp hd with hd | hd
          · rcases base.2.2 d hd with h | h
            · exact Or.inl h
            · exact Or.inr (Or.inl h)
          · right
            right
            rw [List.mem_singleton.mp hd]

theorem goodCfgDemo : GoodCfg cfgDemo :=
  ⟨by decide, by decide, by decide, by decide⟩

/-! ### Sequence-scan lemmas -/

theorem nextNumberOf_none (cfg : Config) (fs : List String)
    (hl : (pySorted (globDayPaths cfg fs)).getLast? = none) :
    nextNumberOf cfg fs = .ok 1 := by
  unfold nextNumberOf
  simp only [hl]

theorem nextNumberOf_some (cfg : Config) (fs : List String) (latest : String)
    (hl : (pySorted (globDayPaths cfg fs)).getLast? = some latest) :
    nextNumberOf cfg fs =
      match pyInt (strTakeWhile (strDrop (pyBasename cfg.sep latest)
          (cfg.dateTag.length + 1)) (fun c => c != '-')) with
      | none => .error .parseError
      | some n => .ok (n + 1) := by
  unfold nextNumberOf
  simp only [hl]

theorem dayNames_mem (cfg : Config) (fs : List String) (nm : String)
    (h : nm ∈ dayNames cfg fs) :
    nm ≠ "" ∧ nm.data.contains cfg.sep = false ∧
      (cfg.dateTag ++ "-").data.isPrefixOf nm.data = true := by
  unfold dayNames at h
  have h1 := List.mem_filter.mp h
  refine ⟨?_, ?_, h1.2⟩ <;>
  · rcases List.mem_filterMap.mp h1.1 with ⟨p, _, hfp⟩
    split at hfp
    · rename_i hcond
      rcases Option.some.inj hfp with rfl
      first
      | exact hcond.2.1
      | exact hcond.2.2
    · exact absurd hfp (by simp)

/-- The parsed segment of the scan comes from the lexicographically last
same-day entry name: if `pySorted` puts `pathJoin month nm` last, the scan
parses `nm`'s segment. -/
theorem latest_shape (cfg : Config) (fs : List String) (hG : GoodCfg cfg)
    (latest : String)
    (hl : (pySorted (globDayPaths cfg fs)).getLast? = some latest) :
    ∃ nm ∈ dayNames cfg fs, latest = pathJoin cfg.sep (monthDirOf cfg) nm ∧
      pyBasename cfg.sep latest = nm := by
  have hmemsorted : latest ∈ pySorted (globDayPaths cfg fs) :=
    List.mem_of_getLast?_eq_some hl
  have hmem : latest ∈ globDayPaths cfg fs := by
    unfold pySorted at hmemsorted
    exact (List.mem_insertionSort pyStrLe).mp hmemsorted
  rcases List.mem_map.mp hmem with ⟨nm, hnm, rfl⟩
  obtain ⟨hne, hsepfree, hpre⟩ := dayNames_mem cfg fs nm hnm
  have ha : ¬(monthDirOf cfg = "" ∨ (monthDirOf cfg).data.getLast? = some cfg.sep) := by
    intro hor
    rcases hor with hor | hor
    · exact hG.monthDirNe hor
    · exact hG.monthDirNoTrail hor
  have hb : nm.data.head? ≠ some cfg.sep :=
    head?_ne_of_not_mem (not_mem_of_contains_eq_false hsepfree)
  refine ⟨nm, hnm, rfl, ?_⟩
  rw [← mk_data (pathJoin cfg.sep (monthDirOf cfg) nm)]
  exact pyBasename_of_shape cfg.sep (monthDirOf cfg) nm hsepfree _
    (data_pathJoin_sep cfg.sep (monthDirOf cfg) nm hb ha)

theorem pyInt_some_of_digits (s : String) (h1 : s.data ≠ [])
    (h2 : s.data.all (·.isDigit) = true) :
    pyInt s = some (s.data.foldl (fun acc c => acc * 10 + (c.toNat - 48)) 0) := by
  unfold pyInt
  rw [if_pos (by simp [List.isEmpty_iff, h1, h2])]

/-- C10 (amended): the sequence scan's parse is total whenever every
same-day entry's segment after `dateTag-` (up to the next hyphen) is a
nonempty digit string; the parse examines only the lexicographically last
entry, and when it fails the call aborts with the parse error before
creating the bundle directory — if the month bucket already existed,
without creating anything at all. -/
theorem claim_C10_parse_totality (cfg : Config) (fs : List String) (sub job : String)
    (hG : GoodCfg cfg) :
    ((∀ nm ∈ dayNames cfg (ensureMonthDir cfg fs),
        (strTakeWhile (strDrop nm (cfg.dateTag.length + 1))
          (fun c => c != '-')).data ≠ [] ∧
        (strTakeWhile (strDrop nm (cfg.dateTag.length + 1))
          (fun c => c != '-')).data.all (·.isDigit) = true) →
      ∃ k, nextNumberOf cfg (ensureMonthDir cfg fs) = .ok k) ∧
    (nextNumberOf cfg (ensureMonthDir cfg fs) = .error .parseError →
      (create_job_history_bundle_dir cfg fs sub job).2 = .error .parseError ∧
      (create_job_history_bundle_dir cfg fs sub job).1 = ensureMonthDir cfg fs ∧
      (fs.contains (monthDirOf cfg) = true →
        (create_job_history_bundle_dir cfg fs sub job).1 = fs)) := by
  constructor
  · intro h
    rcases hl : (pySorted (globDayPaths cfg (ensureMonthDir cfg fs))).getLast? with _ | latest
    · exact ⟨1, nextNumberOf_none cfg _ hl⟩
    · obtain ⟨nm, hnm, rfl, hbase⟩ := latest_shape cfg _ hG latest hl
      have hform := nextNumberOf_some cfg _ _ hl
      rw [hbase] at hform
      obtain ⟨hd1, hd2⟩ := h nm hnm
      rw [pyInt_some_of_digits _ hd1 hd2] at hform
      exact ⟨_, hform⟩
  · intro herr
    rw [create_eq, herr]
    refine ⟨rfl, rfl, fun hf => ?_⟩
    show ensureMonthDir cfg fs = fs
    unfold ensureMonthDir
    rw [if_pos hf]

theorem claim_C10_witness :
    (∀ nm ∈ dayNames cfgDemo
        (ensureMonthDir cfgDemo ["r", "r/2023-01", "r/2023-01/2023-01-15-07-s-j"]),
      (strTakeWhile (strDrop nm (cfgDemo.dateTag.length + 1))
        (fun c => c != '-')).data ≠ [] ∧
      (strTakeWhile (strDrop nm (cfgDemo.dateTag.length + 1))
        (fun c => c != '-')).data.all (·.isDigit) = true) ∧
    (∃ k, nextNumberOf cfgDemo
      (ensureMonthDir cfgDemo ["r", "r/2023-01", "r/2023-01/2023-01-15-07-s-j"]) = .ok k) ∧
    nextNumberOf cfgDemo
      (ensureMonthDir cfgDemo ["r", "r/2023-01", "r/2023-01/2023-01-15-xbad"]) =
      .error .parseError ∧
    ((create_job_history_bundle_dir cfgDemo ["r", "r/2023-01", "r/2023-01/2023-01-15-xbad"]
        "s" "j").2 = .error .parseError ∧
      (create_job_history_bundle_dir cfgDemo ["r", "r/2023-01", "r/2023-01/2023-01-15-xbad"]
        "s" "j").1 =
        ensureMonthDir cfgDemo ["r", "r/2023-01", "r/2023-01/2023-01-15-xbad"] ∧
      ((["r", "r/2023-01", "r/2023-01/2023-01-15-xbad"] : List String).contains
          (monthDirOf cfgDemo) = true →
        (create_job_history_bundle_dir cfgDemo
          ["r", "r/2023-01", "r/2023-01/2023-01-15-xbad"] "s" "j").1 =
          ["r", "r/2023-01", "r/2023-01/2023-01-15-xbad"])) :=
  ⟨by decide,
   (claim_C10_parse_totality cfgDemo ["r", "r/2023-01", "r/2023-01/2023-01-15-07-s-j"]
     "s" "j" goodCfgDemo).1 (by decide),
   by decide,
   (claim_C10_parse_totality cfgDemo ["r", "r/2023-01", "r/2023-01/2023-01-15-xbad"]
     "s" "j" goodCfgDemo).2 (by decide)⟩

theorem claim_C5_witness :
    GoodCfg cfgDemo ∧
    (pyDirname cfgDemo.sep (monthDirOf cfgDemo) = "" ∨
      pyDirname cfgDemo.sep (monthDirOf cfgDemo) = monthDirOf cfgDemo ∨
      (["r", "r/2023-01"] : List String).contains
        (pyDirname cfgDemo.sep (monthDirOf cfgDemo)) = true) ∧
    (["r", "r/2023-01"] <+:
        (create_job_history_bundle_dir cfgDemo ["r", "r/2023-01"] "su" "jo").1 ∧
      (create_job_history_bundle_dir cfgDemo ["r", "r/2023-01"] "su" "jo").1.length ≤
        (["r", "r/2023-01"] : List String).length + 2 ∧
      ∀ d ∈ (create_job_history_bundle_dir cfgDemo ["r", "r/2023-01"] "su" "jo").1,
        d ∈ (["r", "r/2023-01"] : List String) ∨ d = monthDirOf cfgDemo ∨
          (create_job_history_bundle_dir cfgDemo ["r", "r/2023-01"] "su" "jo").2 = .ok d) :=
  ⟨goodCfgDemo, by decide,
   claim_C5_created cfgDemo ["r", "r/2023-01"] "su" "jo" goodCfgDemo (by decide)⟩

theorem nextNumberOf_error_parse (cfg : Config) (fs : List String) (e : AllocError)
    (h : nextNumberOf cfg fs = .error e) : e = .parseError := by
  rcases hl : (pySorted (globDayPaths cfg fs)).getLast? with _ | latest
  · rw [nextNumberOf_none cfg fs hl] at h
    simp at h
  · rw [nextNumberOf_some cfg fs latest hl] at h
    split at h
    · exact (Except.error.inj h).symm
    · simp at h

theorem maxJobNameBudget_of_not_short (cfg : Config) (hplat : cfg.shortPathPlatform = false)
    (m : Nat) (s' : String) : maxJobNameBudget cfg m s' = 128 := by
  unfold maxJobNameBudget
  rw [if_neg]
  rw [hplat]
  simp

/-- C3: on `win32`/`cygwin`, once the sequence scan has produced the number
`n`, the job-name budget is exactly `min (207 - len(abspath(month_dir /
prefix)), 128)`; the call raises the path-too-long `RuntimeError` precisely
when that budget is below one, and otherwise a successful call truncates the
sanitized job name to the budget, so the prefix's absolute length plus the
kept job-name length never exceeds 207. -/
theorem claim_C3_short_path_budget (cfg : Config) (fs : List String) (sub job : String)
    (n : Nat) (hplat : cfg.shortPathPlatform = true)
    (hn : nextNumberOf cfg (ensureMonthDir cfg fs) = .ok n) :
    maxJobNameBudget cfg n (sanitizeName sub) =
      min (207 - ((cfg.abspath (pathJoin cfg.sep (monthDirOf cfg)
        (jobDirPrefix0 cfg n (sanitizeName sub)))).length : Int)) 128 ∧
    ((create_job_history_bundle_dir cfg fs sub job).2 = .error .pathTooLong ↔
      maxJobNameBudget cfg n (sanitizeName sub) < 1) ∧
    ∀ p, (create_job_history_bundle_dir cfg fs sub job).2 = .ok p →
      p = pathJoin cfg.sep (monthDirOf cfg)
        (jobDirPrefix0 cfg n (sanitizeName sub) ++
          strTake (sanitizeName job)
            (maxJobNameBudget cfg n (sanitizeName sub)).toNat) ∧
      ((cfg.abspath (pathJoin cfg.sep (monthDirOf cfg)
          (jobDirPrefix0 cfg n (sanitizeName sub)))).length : Int) +
        (strTake (sanitizeName job)
          (maxJobNameBudget cfg n (sanitizeName sub)).toNat).length ≤ 207 := by
  have hbud : maxJobNameBudget cfg n (sanitizeName sub) =
      min (207 - ((cfg.abspath (pathJoin cfg.sep (monthDirOf cfg)
        (jobDirPrefix0 cfg n (sanitizeName sub)))).length : Int)) 128 := by
    unfold maxJobNameBudget
    rw [if_pos hplat]
  refine ⟨hbud, ?_, ?_⟩
  · rw [create_eq]
    simp only [hn]
    by_cases hb : maxJobNameBudget cfg n (sanitizeName sub) < 1
    · rw [if_pos hb]
      simp only [hb, iff_true]
    · rw [if_neg hb]
      by_cases hc : (ensureMonthDir cfg fs).contains
          (pathJoin cfg.sep (monthDirOf cfg)
            (jobDirPrefix0 cfg n (sanitizeName sub) ++
              strTake (sanitizeName job)
                (maxJobNameBudget cfg n (sanitizeName sub)).toNat)) = true
      · rw [if_pos hc]
        constructor
        · intro h
          exact absurd (Except.error.inj h) (by decide)
        · intro h
          exact absurd h hb
      · rw [if_neg hc]
        constructor
        · intro h
          simp at h
        · intro h
          exact absurd h hb
  · intro p hok
    obtain ⟨n', hn', hb, hc, hp, h1⟩ := ok_dissect cfg fs sub job p hok
    have hnn : n' = n := Except.ok.inj (hn'.symm.trans hn)
    subst hnn
    refine ⟨hp, ?_⟩
    have hlen : (strTake (sanitizeName job)
        (maxJobNameBudget cfg n' (sanitizeName sub)).toNat).length ≤
        (maxJobNameBudget cfg n' (sanitizeName sub)).toNat := by
      show ((sanitizeName job).data.take _).length ≤ _
      rw [List.length_take]
      exact min_le_left _ _
    have h2 : maxJobNameBudget cfg n' (sanitizeName sub) ≤
        207 - ((cfg.abspath (pathJoin cfg.sep (monthDirOf cfg)
          (jobDirPrefix0 cfg n' (sanitizeName sub)))).length : Int) := by
      rw [hbud]
      exact min_le_left _ _
    have h3 : ((maxJobNameBudget cfg n' (sanitizeName sub)).toNat : Int) =
        maxJobNameBudget cfg n' (sanitizeName sub) :=
      Int.toNat_of_nonneg (by omega)
    omega

theorem claim_C3_witness :
    cfgWin.shortPathPlatform = true ∧
    nextNumberOf cfgWin (ensureMonthDir cfgWin ["r", "r/2023-01"]) = .ok 1 ∧
    (maxJobNameBudget cfgWin 1 (sanitizeName "Su") =
      min (207 - ((cfgWin.abspath (pathJoin cfgWin.sep (monthDirOf cfgWin)
        (jobDirPrefix0 cfgWin 1 (sanitizeName "Su")))).length : Int)) 128 ∧
    ((create_job_history_bundle_dir cfgWin ["r", "r/2023-01"] "Su" "Jo").2 =
        .error .pathTooLong ↔
      maxJobNameBudget cfgWin 1 (sanitizeName "Su") < 1) ∧
    ∀ p, (create_job_history_bundle_dir cfgWin ["r", "r/2023-01"] "Su" "Jo").2 = .ok p →
      p = pathJoin cfgWin.sep (monthDirOf cfgWin)
        (jobDirPrefix0 cfgWin 1 (sanitizeName "Su") ++
          strTake (sanitizeName "Jo")
            (maxJobNameBudget cfgWin 1 (sanitizeName "Su")).toNat) ∧
      ((cfgWin.abspath (pathJoin cfgWin.sep (monthDirOf cfgWin)
          (jobDirPrefix0 cfgWin 1 (sanitizeName "Su")))).length : Int) +
        (strTake (sanitizeName "Jo")
          (maxJobNameBudget cfgWin 1 (sanitizeName "Su")).toNat).length ≤ 207) :=
  ⟨by decide, by decide,
   claim_C3_short_path_budget cfgWin ["r", "r/2023-01"] "Su" "Jo" 1 (by decide) (by decide)⟩

set_option maxRecDepth 10000 in
/-- C7: on a platform without the short-path constraint the path-too-long
error is impossible, the sanitized job name is truncated only to the fixed
cap of 128 characters regardless of the root length, and an allocation whose
assembled path exceeds 256 characters still succeeds. -/
theorem claim_C7_unconstrained (cfg : Config) (fs : List String) (sub job : String)
    (hplat : cfg.shortPathPlatform = false) :
    (create_job_history_bundle_dir cfg fs sub job).2 ≠ .error .pathTooLong ∧
    (∀ n p, nextNumberOf cfg (ensureMonthDir cfg fs) = .ok n →
      (create_job_history_bundle_dir cfg fs sub job).2 = .ok p →
      p = pathJoin cfg.sep (monthDirOf cfg)
        (jobDirPrefix0 cfg n (sanitizeName sub) ++ strTake (sanitizeName job) 128)) ∧
    (∃ q, (create_job_history_bundle_dir cfgLongRoot [] "S" "a").2 = .ok q ∧
      256 < q.length) := by
  refine ⟨?_, ?_, ?_⟩
  · rw [create_eq]
    split
    · rename_i e heq
      intro habs
      have he := nextNumberOf_error_parse cfg _ e heq
      subst he
      exact absurd (Except.error.inj habs) (by decide)
    · rename_i n heq
      rw [maxJobNameBudget_of_not_short cfg hplat n (sanitizeName sub)]
      rw [if_neg (by decide : ¬ (128 : Int) < 1)]
      by_cases hc : (ensureMonthDir cfg fs).contains
          (pathJoin cfg.sep (monthDirOf cfg)
            (jobDirPrefix0 cfg n (sanitizeName sub) ++
              strTake (sanitizeName job) ((128 : Int)).toNat)) = true
      · rw [if_pos hc]
        intro habs
        exact absurd (Except.error.inj habs) (by decide)
      · rw [if_neg hc]
        intro habs
        simp at habs
  · intro n p hn hok
    obtain ⟨n', hn', hb, hc, hp, h1⟩ := ok_dissect cfg fs sub job p hok
    have hnn : n' = n := Except.ok.inj (hn'.symm.trans hn)
    subst hnn
    rw [maxJobNameBudget_of_not_short cfg hplat n' (sanitizeName sub)] at hp
    simpa using hp
  · refine ⟨String.mk (List.replicate 250 'x') ++ "/2023-01/2023-01-15-01-S-a",
      by decide, by decide⟩

theorem claim_C7_witness :
    cfgDemo.shortPathPlatform = false ∧
    ((create_job_history_bundle_dir cfgDemo ["r"] "su" "jo").2 ≠ .error .pathTooLong ∧
      (∀ n p, nextNumberOf cfgDemo (ensureMonthDir cfgDemo ["r"]) = .ok n →
        (create_job_history_bundle_dir cfgDemo ["r"] "su" "jo").2 = .ok p →
        p = pathJoin cfgDemo.sep (monthDirOf cfgDemo)
          (jobDirPrefix0 cfgDemo n (sanitizeName "su") ++
            strTake (sanitizeName "jo") 128)) ∧
      (∃ q, (create_job_history_bundle_dir cfgLongRoot [] "S" "a").2 = .ok q ∧
        256 < q.length)) :=
  ⟨by decide, claim_C7_unconstrained cfgDemo ["r"] "su" "jo" (by decide)⟩

/-! ### Lexicographic comparison lemmas -/

theorem char_toNat_inj {a b : Char} (h : a.toNat = b.toNat) : a = b :=
  Char.ext (UInt32.toNat.inj h)

theorem strLtB_irrefl : ∀ l : List Char, strLtB l l = false := by
  intro l
  induction l with
  | nil => rfl
  | cons c t ih => simp [strLtB, ih]

theorem strLtB_ne {a b : List Char} (h : strLtB a b = true) : a ≠ b := by
  intro he
  subst he
  rw [strLtB_irrefl a] at h
  simp at h

theorem strLtB_asymm : ∀ {a b : List Char}, strLtB a b = true → strLtB b a = false := by
  intro a
  induction a with
  | nil =>
    intro b h
    cases b with
    | nil => simpa [strLtB] using h
    | cons c t => rfl
  | cons c t ih =>
    intro b h
    cases b with
    | nil => simp [strLtB] at h
    | cons d u =>
      simp only [strLtB] at h ⊢
      rcases Nat.lt_trichotomy c.toNat d.toNat with h1 | h1 | h1
      · rw [if_neg (by omega), if_pos h1]
      · rw [if_neg (by omega), if_neg (by omega)] at h ⊢
        exact ih h
      · rw [if_neg (by omega), if_pos h1] at h
        exact absurd h (by decide)

theorem strLtB_trans : ∀ {a b c : List Char},
    strLtB a b = true → strLtB b c = true → strLtB a c = true := by
  intro a
  induction a with
  | nil =>
    intro b c h1 h2
    cases b with
    | nil => simp [strLtB] at h1
    | cons y ys =>
      cases c with
      | nil => simp [strLtB] at h2
      | cons z zs => rfl
  | cons x xs ih =>
    intro b c h1 h2
    cases b with
    | nil => simp [strLtB] at h1
    | cons y ys =>
      cases c with
      | nil => simp [strLtB] at h2
      | cons z zs =>
        simp only [strLtB] at h1 h2 ⊢
        rcases Nat.lt_trichotomy x.toNat y.toNat with hxy | hxy | hxy <;>
          rcases Nat.lt_trichotomy y.toNat z.toNat with hyz | hyz | hyz
        · rw [if_pos (by omega)]
        · rw [if_pos (by omega)]
        · rw [if_neg (by omega), if_pos hyz] at h2
          exact absurd h2 (by decide)
        · rw [if_pos (by omega)]
        · rw [if_neg (by omega), if_neg (by omega)] at h1 h2 ⊢
          exact ih h1 h2
        · rw [if_neg (by omega), if_pos hyz] at h2
          exact absurd h2 (by decide)
        · rw [if_neg (by omega), if_pos hxy] at h1
          exact absurd h1 (by decide)
        · rw [if_neg (by omega), if_pos hxy] at h1
          exact absurd h1 (by decide)
        · rw [if_neg (by omega), if_pos hxy] at h1
          exact absurd h1 (by decide)

theorem strLtB_connex : ∀ {a b : List Char},
    strLtB a b = false → strLtB b a = false → a = b := by
  intro a
  induction a with
  | nil =>
    intro b h1 _
    cases b with
    | nil => rfl
    | cons c t => simp [strLtB] at h1
  | cons x xs ih =>
    intro b h1 h2
    cases b with
    | nil => simp [strLtB] at h2
    | cons y ys =>
      simp only [strLtB] at h1 h2
      rcases Nat.lt_trichotomy x.toNat y.toNat with hxy | hxy | hxy
      · rw [if_pos hxy] at h1
        exact absurd h1 (by decide)
      · rw [if_neg (by omega), if_neg (by omega)] at h1 h2
        rw [char_toNat_inj hxy, ih h1 h2]
      · rw [if_pos hxy] at h2
        exact absurd h2 (by decide)

theorem strLtB_append_left : ∀ (P a b : List Char),
    strLtB (P ++ a) (P ++ b) = strLtB a b := by
  intro P
  induction P with
  | nil => intro a b; rfl
  | cons c t ih =>
    intro a b
    simp only [List.cons_append, strLtB]
    rw [if_neg (by omega), if_neg (by omega)]
    exact ih a b

instance : IsTotal String pyStrLe := by
  constructor
  intro a b
  unfold pyStrLe pyStrLt
  cases h : strLtB b.data a.data
  · left
    simp
  · right
    rw [strLtB_asymm h]
    simp

instance : IsTrans String pyStrLe := by
  constructor
  intro a b c hab hbc
  unfold pyStrLe pyStrLt at hab hbc ⊢
  intro hca
  cases hbc2 : strLtB b.data c.data
  · cases hcb : strLtB c.data b.data
    · have heq := strLtB_connex hbc2 hcb
      rw [heq] at hab
      exact hab (of_eq_true (eq_true hca))
    · exact hbc (of_eq_true (eq_true hcb))
  · exact hab (of_eq_true (eq_true (strLtB_trans hbc2 hca)))

theorem pairwise_getLast {α : Type} (R : α → α → Prop) :
    ∀ (l : List α) (z : α), l.Pairwise R → l.getLast? = some z →
      ∀ x ∈ l, x = z ∨ R x z := by
  intro l
  induction l with
  | nil =>
    intro z _ hz
    simp at hz
  | cons a t ih =>
    intro z hp hz x hx
    cases t with
    | nil =>
      simp only [List.getLast?_singleton, Option.some.injEq] at hz
      rcases List.mem_singleton.mp hx with rfl
      exact Or.inl hz

    | cons b t2 =>
      rw [List.getLast?_cons_cons] at hz
      rcases List.mem_cons.mp hx with rfl | hx2
      · exact Or.inr ((List.pairwise_cons.mp hp).1 z (List.mem_of_getLast?_eq_some hz))
      · exact ih z (List.pairwise_cons.mp hp).2 hz x hx2

theorem getLast_pySorted_max (l : List String) (e : String) (he : e ∈ l)
    (hmax : ∀ x ∈ l, x ≠ e → pyStrLt x e) :
    (pySorted l).getLast? = some e := by
  unfold pySorted
  have hperm := List.perm_insertionSort pyStrLe l
  have hsorted : (l.insertionSort pyStrLe).Pairwise pyStrLe :=
    List.sorted_insertionSort pyStrLe l
  have hne : l.insertionSort pyStrLe ≠ [] :=
    List.ne_nil_of_mem ((List.mem_insertionSort pyStrLe).mpr he)
  rcases hzz : (l.insertionSort pyStrLe).getLast? with _ | z
  · exact absurd (List.getLast?_eq_none_iff.mp hzz) hne
  · have hzl : z ∈ l :=
      (List.mem_insertionSort pyStrLe).mp (List.mem_of_getLast?_eq_some hzz)
    have hez := pairwise_getLast pyStrLe _ z hsorted hzz e
      ((List.mem_insertionSort pyStrLe).mpr he)
    by_cases hze : z = e
    · rw [hze]
    · have hlt : pyStrLt z e := hmax z hzl hze
      rcases hez with rfl | hle
      · exact absurd rfl hze
      · exact absurd hlt hle

/-! ### Two-digit formatting lemmas -/

theorem fmt2_eq_digits : ∀ n, n ≤ 99 →
    (fmt2 n).data = [Char.ofNat (48 + n / 10), Char.ofNat (48 + n % 10)] := by decide

theorem fmt2_100_data : (fmt2 100).data = ['1', '0', '0'] := by decide

theorem dd : ∀ x, x < 10 → (Char.ofNat (48 + x)).toNat = 48 + x := by decide

theorem pyInt_fmt2 : ∀ k, k ≤ 99 → pyInt (fmt2 k) = some k := by decide

theorem strLtB_cons_append (M : List Char) (c : Char) (X Y : List Char) :
    strLtB (M ++ c :: X) (M ++ c :: Y) = strLtB X Y := by
  rw [show M ++ c :: X = (M ++ [c]) ++ X by simp,
    show M ++ c :: Y = (M ++ [c]) ++ Y by simp, strLtB_append_left]

theorem name_lt_two_digit (dt : List Char) (i j : Nat) (ti tj : List Char)
    (hij : i < j) (hj : j ≤ 99) :
    strLtB (dt ++ '-' :: ((fmt2 i).data ++ ti))
      (dt ++ '-' :: ((fmt2 j).data ++ tj)) = true := by
  rw [strLtB_cons_append]
  rw [fmt2_eq_digits i (by omega), fmt2_eq_digits j hj]
  have ha1 := dd (i / 10) (by omega)
  have ha2 := dd (i % 10) (by omega)
  have hb1 := dd (j / 10) (by omega)
  have hb2 := dd (j % 10) (by omega)
  simp only [List.cons_append, List.nil_append, strLtB, ha1, ha2, hb1, hb2]
  have h10 : i / 10 ≤ j / 10 := Nat.div_le_div_right (by omega)
  by_cases hdiv : i / 10 < j / 10
  · rw [if_pos (by omega)]
  · rw [if_neg (by omega), if_neg (by omega), if_pos (by omega)]

theorem name_lt_vs100_below (dt : List Char) (i : Nat) (ti tj : List Char) (hi : i ≤ 9) :
    strLtB (dt ++ '-' :: ((fmt2 i).data ++ ti))
      (dt ++ '-' :: ((fmt2 100).data ++ tj)) = true := by
  rw [strLtB_cons_append]
  rw [fmt2_eq_digits i (by omega), fmt2_100_data]
  have ha1 := dd (i / 10) (by omega)
  simp only [List.cons_append, List.nil_append, strLtB, ha1,
    show ('1' : Char).toNat = 49 from rfl]
  rw [if_pos (by omega)]

theorem name_lt_ten_vs100 (dt ti tj : List Char) :
    strLtB (dt ++ '-' :: ((fmt2 10).data ++ '-' :: ti))
      (dt ++ '-' :: ((fmt2 100).data ++ tj)) = true := by
  rw [strLtB_cons_append]
  rw [show (fmt2 10).data = ['1', '0'] by decide, fmt2_100_data]
  simp only [List.cons_append, List.nil_append, strLtB,
    show ('1' : Char).toNat = 49 from rfl, show ('0' : Char).toNat = 48 from rfl,
    show ('-' : Char).toNat = 45 from rfl]
  rw [if_neg (by omega), if_neg (by omega), if_neg (by omega), if_neg (by omega),
    if_pos (by omega)]

theorem name_lt_100_vs (dt : List Char) (i : Nat) (ti tj : List Char)
    (h1 : 11 ≤ i) (h2 : i ≤ 99) :
    strLtB (dt ++ '-' :: ((fmt2 100).data ++ tj))
      (dt ++ '-' :: ((fmt2 i).data ++ ti)) = true := by
  rw [strLtB_cons_append]
  rw [fmt2_eq_digits i (by omega), fmt2_100_data]
  have hb1 := dd (i / 10) (by omega)
  have hb2 := dd (i % 10) (by omega)
  simp only [List.cons_append, List.nil_append, strLtB, hb1, hb2,
    show ('1' : Char).toNat = 49 from rfl, show ('0' : Char).toNat = 48 from rfl]
  by_cases hdiv : i / 10 = 1
  · rw [if_neg (by omega), if_neg (by omega), if_pos (by omega)]
  · rw [if_pos (by omega)]

/-! ### Entry name and path shape lemmas -/

theorem entryNameOf_data (cfg : Config) (i : Nat) (sub job : String) :
    (entryNameOf cfg i sub job).data =
      cfg.dateTag.data ++ '-' :: ((fmt2 i).data ++ '-' ::
        ((sanitizeName sub).data ++ '-' :: (sanitizeName job).data.take 128)) := by
  show (jobDirPrefix0 cfg i (sanitizeName sub) ++ strTake (sanitizeName job) 128).data = _
  simp [jobDirPrefix0, strTake, String.data_append, List.append_assoc]

theorem entryNameOf_sepFree (cfg : Config) (hG : GoodCfg cfg) (i : Nat)
    (sub job : String) :
    (entryNameOf cfg i sub job).data.contains cfg.sep = false :=
  sep_not_mem_name cfg hG.sepNotKept hG.dateTagSepFree i 128 sub job

theorem entryNameOf_ne_empty (cfg : Config) (i : Nat) (sub job : String) :
    entryNameOf cfg i sub job ≠ "" := by
  intro h
  have hd := congrArg String.data h
  rw [entryNameOf_data] at hd
  simp at hd

theorem entryNameOf_day_prefixed (cfg : Config) (i : Nat) (sub job : String) :
    (cfg.dateTag ++ "-").data.isPrefixOf (entryNameOf cfg i sub job).data = true := by
  rw [List.isPrefixOf_iff_prefix, entryNameOf_data, String.data_append]
  exact ⟨(fmt2 i).data ++ '-' :: ((sanitizeName sub).data ++ '-' ::
    (sanitizeName job).data.take 128), by simp⟩

theorem monthDir_not_degenerate (cfg : Config) (hG : GoodCfg cfg) :
    ¬(monthDirOf cfg = "" ∨ (monthDirOf cfg).data.getLast? = some cfg.sep) := by
  intro hor
  rcases hor with h | h
  · exact hG.monthDirNe h
  · exact hG.monthDirNoTrail h

theorem entryPathOf_data (cfg : Config) (hG : GoodCfg cfg) (i : Nat) (sub job : String) :
    (entryPathOf cfg i sub job).data =
      (monthDirOf cfg).data ++ cfg.sep :: (entryNameOf cfg i sub job).data := by
  unfold entryPathOf
  exact data_pathJoin_sep cfg.sep (monthDirOf cfg) (entryNameOf cfg i sub job)
    (head?_ne_of_not_mem (not_mem_of_contains_eq_false (entryNameOf_sepFree cfg hG i sub job)))
    (monthDir_not_degenerate cfg hG)

theorem nameOf_lt_two_digit (cfg : Config) {i j : Nat} (si ji sj jj : String)
    (hij : i < j) (hj : j ≤ 99) :
    strLtB (entryNameOf cfg i si ji).data (entryNameOf cfg j sj jj).data = true := by
  rw [entryNameOf_data, entryNameOf_data]
  exact name_lt_two_digit _ i j _ _ hij hj

theorem nameOf_le10_lt_100 (cfg : Config) {i : Nat} (si ji sj jj : String) (hi : i ≤ 10) :
    strLtB (entryNameOf cfg i si ji).data (entryNameOf cfg 100 sj jj).data = true := by
  rw [entryNameOf_data, entryNameOf_data]
  by_cases h9 : i ≤ 9
  · exact name_lt_vs100_below _ i _ _ h9
  · have h10 : i = 10 := by omega
    subst h10
    exact name_lt_ten_vs100 _ _ _

theorem nameOf_100_lt (cfg : Config) {i : Nat} (si ji sj jj : String)
    (h1 : 11 ≤ i) (h2 : i ≤ 99) :
    strLtB (entryNameOf cfg 100 sj jj).data (entryNameOf cfg i si ji).data = true := by
  rw [entryNameOf_data, entryNameOf_data]
  exact name_lt_100_vs _ i _ _ h1 h2

theorem nameOf_ne (cfg : Config) {i j : Nat} (si ji sj jj : String)
    (hi : i ≤ 100) (hj : j ≤ 100) (hij : i ≠ j) :
    entryNameOf cfg i si ji ≠ entryNameOf cfg j sj jj := by
  intro he
  have hdata := congrArg String.data he
  have hor : strLtB (entryNameOf cfg i si ji).data (entryNameOf cfg j sj jj).data = true ∨
      strLtB (entryNameOf cfg j sj jj).data (entryNameOf cfg i si ji).data = true := by
    rcases Nat.lt_or_ge i j with h | h
    · by_cases hj99 : j ≤ 99
      · exact Or.inl (nameOf_lt_two_digit cfg si ji sj jj h hj99)
      · have hj100 : j = 100 := by omega
        subst hj100
        by_cases hi10 : i ≤ 10
        · exact Or.inl (nameOf_le10_lt_100 cfg si ji sj jj hi10)
        · exact Or.inr (nameOf_100_lt cfg si ji sj jj (by omega) (by omega))
    · have h' : j < i := by omega
      by_cases hi99 : i ≤ 99
      · exact Or.inr (nameOf_lt_two_digit cfg sj jj si ji h' hi99)
      · have hi100 : i = 100 := by omega
        subst hi100
        by_cases hj10 : j ≤ 10
        · exact Or.inr (nameOf_le10_lt_100 cfg sj jj si ji hj10)
        · exact Or.inl (nameOf_100_lt cfg sj jj si ji (by omega) (by omega))
  rcases hor with h | h
  · exact strLtB_ne h hdata
  · exact strLtB_ne h hdata.symm

theorem pathOf_lt_of_nameB (cfg : Config) (hG : GoodCfg cfg) {a b : Nat}
    (sa ja sb jb : String)
    (h : strLtB (entryNameOf cfg a sa ja).data (entryNameOf cfg b sb jb).data = true) :
    pyStrLt (entryPathOf cfg a sa ja) (entryPathOf cfg b sb jb) := by
  unfold pyStrLt
  rw [entryPathOf_data cfg hG, entryPathOf_data cfg hG, strLtB_cons_append]
  exact h

/-! ### Listing lemmas -/

theorem childNames_append (sep : Char) (fs gs : List String) (dir : String) :
    childNames sep (fs ++ gs) dir = childNames sep fs dir ++ childNames sep gs dir := by
  unfold childNames
  exact List.filterMap_append fs gs _

theorem dayNames_append (cfg : Config) (fs gs : List String) :
    dayNames cfg (fs ++ gs) = dayNames cfg fs ++ dayNames cfg gs := by
  unfold dayNames
  rw [childNames_append, List.filter_append]

theorem childNames_nil_of_short (sep : Char) (dir : String) :
    ∀ chain : List String, (∀ x ∈ chain, x.length ≤ dir.length) →
      childNames sep chain dir = [] := by
  intro chain hshort
  unfold childNames
  rw [List.filterMap_eq_nil_iff]
  intro x hx
  rw [if_neg]
  intro hcon
  have hlen := (List.isPrefixOf_iff_prefix.mp hcon.1).length_le
  rw [String.data_append] at hlen
  simp only [List.length_append] at hlen
  have h1 : (sepStr sep).data.length = 1 := rfl
  have h2 := hshort x hx
  rw [strLength, strLength] at h2
  omega

theorem dayNames_nil_of_short (cfg : Config) (chain : List String)
    (hshort : ∀ x ∈ chain, x.length ≤ (monthDirOf cfg).length) :
    dayNames cfg chain = [] := by
  unfold dayNames
  rw [childNames_nil_of_short cfg.sep (monthDirOf cfg) chain hshort]
  rfl

theorem pyMakedirsAux_append (sep : Char) (fuel : Nat) :
    ∀ (fs : List String) (s : String), ∃ chain,
      pyMakedirsAux sep fuel fs s = fs ++ chain ∧ ∀ x ∈ chain, x.length ≤ s.length := by
  induction fuel with
  | zero => exact fun fs s => ⟨[s], rfl, by simp⟩
  | succ fuel ih =>
    intro fs s
    by_cases hC : pyDirname sep s ≠ "" ∧ pyDirname sep s ≠ s ∧
        fs.contains (pyDirname sep s) = false
    · obtain ⟨chain', h1, h2⟩ := ih fs (pyDirname sep s)
      refine ⟨chain' ++ [s], ?_, ?_⟩
      · simp only [pyMakedirsAux, if_pos hC, h1, List.append_assoc]
      · intro x hx
        rcases List.mem_append.mp hx with hx | hx
        · exact (h2 x hx).trans (pyDirname_length_le sep s)
        · rw [List.mem_singleton.mp hx]
    · refine ⟨[s], ?_, by simp⟩
      simp only [pyMakedirsAux, if_neg hC]

theorem dayNames_ensureMonthDir (cfg : Config) (fs : List String) :
    dayNames cfg (ensureMonthDir cfg fs) = dayNames cfg fs := by
  unfold ensureMonthDir
  by_cases h : fs.contains (monthDirOf cfg)
  · rw [if_pos h]
  · rw [if_neg h]
    unfold pyMakedirs
    obtain ⟨chain, h1, h2⟩ := pyMakedirsAux_append cfg.sep (monthDirOf cfg).length fs
      (monthDirOf cfg)
    rw [h1, dayNames_append, dayNames_nil_of_short cfg chain h2, List.append_nil]

theorem mem_dayNames_of_path_mem (cfg : Config) (hG : GoodCfg cfg) (fs : List String)
    (nm : String) (hne : nm ≠ "") (hsf : nm.data.contains cfg.sep = false)
    (hpre : (cfg.dateTag ++ "-").data.isPrefixOf nm.data = true)
    (hmem : pathJoin cfg.sep (monthDirOf cfg) nm ∈ fs) :
    nm ∈ dayNames cfg fs := by
  unfold dayNames
  apply List.mem_filter.mpr
  refine ⟨?_, hpre⟩
  unfold childNames
  apply List.mem_filterMap.mpr
  refine ⟨pathJoin cfg.sep (monthDirOf cfg) nm, hmem, ?_⟩
  have hdata := data_pathJoin_sep cfg.sep (monthDirOf cfg) nm
    (head?_ne_of_not_mem (not_mem_of_contains_eq_false hsf))
    (monthDir_not_degenerate cfg hG)
  have hdrop : strDrop (pathJoin cfg.sep (monthDirOf cfg) nm)
      ((monthDirOf cfg).length + 1) = nm := by
    apply String.ext
    rw [strDrop_data, hdata,
      show (monthDirOf cfg).data ++ cfg.sep :: nm.data =
        ((monthDirOf cfg).data ++ [cfg.sep]) ++ nm.data by simp,
      List.drop_left' (by rw [List.length_append]; rfl)]
  rw [if_pos]
  · rw [hdrop]
  · refine ⟨?_, ?_, ?_⟩
    · rw [List.isPrefixOf_iff_prefix, hdata, String.data_append]
      exact ⟨nm.data, by simp [sepStr]⟩
    · rw [hdrop]
      exact hne
    · rw [hdrop]
      exact hsf

theorem path_mem_of_mem_dayNames (cfg : Config) (hG : GoodCfg cfg) (fs : List String)
    (nm : String) (h : nm ∈ dayNames cfg fs) :
    pathJoin cfg.sep (monthDirOf cfg) nm ∈ fs := by
  unfold dayNames at h
  have h1 := (List.mem_filter.mp h).1
  unfold childNames at h1
  rcases List.mem_filterMap.mp h1 with ⟨p, hp, hfp⟩
  split at hfp
  · rename_i hcond
    rcases Option.some.inj hfp with rfl
    rcases List.isPrefixOf_iff_prefix.mp hcond.1 with ⟨t, ht⟩
    have hdropdata : (strDrop p ((monthDirOf cfg).length + 1)).data = t := by
      rw [strDrop_data, ← ht]
      rw [List.drop_left' (by rw [String.data_append, List.length_append]; rfl)]
    have hpj : pathJoin cfg.sep (monthDirOf cfg)
        (strDrop p ((monthDirOf cfg).length + 1)) = p := by
      apply String.ext
      rw [data_pathJoin_sep cfg.sep (monthDirOf cfg) _
        (head?_ne_of_not_mem (not_mem_of_contains_eq_false hcond.2.2))
        (monthDir_not_degenerate cfg hG), hdropdata, ← ht, String.data_append]
      simp [sepStr]
    rw [hpj]
    exact hp
  · exact absurd hfp (by simp)

theorem isDigit_ne_dash {c : Char} (h : c.isDigit = true) : (c != '-') = true := by
  by_cases hc : c = '-'
  · subst hc
    simp at h
  · simp [hc]

theorem seg_of_name (dt : List Char) (k : Nat) (rest : List Char) :
    ((dt ++ '-' :: ((fmt2 k).data ++ '-' :: rest)).drop (dt.length + 1)).takeWhile
      (fun c => c != '-') = (fmt2 k).data := by
  rw [show dt ++ '-' :: ((fmt2 k).data ++ '-' :: rest) =
    (dt ++ ['-']) ++ ((fmt2 k).data ++ '-' :: rest) by simp]
  rw [List.drop_left' (by rw [List.length_append]; rfl)]
  rw [List.takeWhile_append_of_pos (fun c hc => isDigit_ne_dash (fmt2_digits k c hc))]
  rw [List.takeWhile_cons_of_neg (by simp)]
  simp

/-- The scan on a month bucket whose same-day entries are allocator-formatted
names: if the entry numbered `k ≤ 99` dominates every other entry
lexicographically, the scan parses `k` and returns `k + 1`. -/
theorem nextNumberOf_of_dayNames (cfg : Config) (hG : GoodCfg cfg) (fs : List String)
    (l : List (Nat × String × String)) (k : Nat) (sk jk : String)
    (hday : dayNames cfg fs = l.map (fun it => entryNameOf cfg it.1 it.2.1 it.2.2))
    (hmem : (k, sk, jk) ∈ l) (hk : k ≤ 99)
    (hdom : ∀ it ∈ l,
      entryNameOf cfg it.1 it.2.1 it.2.2 ≠ entryNameOf cfg k sk jk →
      strLtB (entryNameOf cfg it.1 it.2.1 it.2.2).data
        (entryNameOf cfg k sk jk).data = true) :
    nextNumberOf cfg fs = .ok (k + 1) := by
  have hglob : globDayPaths cfg fs =
      l.map (fun it => entryPathOf cfg it.1 it.2.1 it.2.2) := by
    unfold globDayPaths
    rw [hday, List.map_map]
    rfl
  have hlast : (pySorted (globDayPaths cfg fs)).getLast? =
      some (entryPathOf cfg k sk jk) := by
    rw [hglob]
    apply getLast_pySorted_max
    · exact List.mem_map.mpr ⟨(k, sk, jk), hmem, rfl⟩
    · intro x hx hne
      rcases List.mem_map.mp hx with ⟨it, hit, rfl⟩
      apply pathOf_lt_of_nameB cfg hG
      apply hdom it hit
      intro hnameeq
      apply hne
      unfold entryPathOf
      rw [hnameeq]
  have hform := nextNumberOf_some cfg fs _ hlast
  have hbase : pyBasename cfg.sep (entryPathOf cfg k sk jk) =
      entryNameOf cfg k sk jk := by
    rw [← mk_data (entryPathOf cfg k sk jk)]
    exact pyBasename_of_shape cfg.sep (monthDirOf cfg) _
      (entryNameOf_sepFree cfg hG k sk jk) _ (entryPathOf_data cfg hG k sk jk)
  rw [hbase] at hform
  have hseg : strTakeWhile (strDrop (entryNameOf cfg k sk jk) (cfg.dateTag.length + 1))
      (fun c => c != '-') = fmt2 k := by
    apply String.ext
    rw [strTakeWhile_data, strDrop_data, entryNameOf_data]
    exact seg_of_name cfg.dateTag.data k _
  rw [hseg, pyInt_fmt2 k hk] at hform
  exact hform

theorem dayNames_single_entry (cfg : Config) (hG : GoodCfg cfg) (i : Nat)
    (sub job : String) :
    dayNames cfg [entryPathOf cfg i sub job] = [entryNameOf cfg i sub job] := by
  have hdrop : strDrop (entryPathOf cfg i sub job) ((monthDirOf cfg).length + 1) =
      entryNameOf cfg i sub job := by
    apply String.ext
    rw [strDrop_data, entryPathOf_data cfg hG,
      show (monthDirOf cfg).data ++ cfg.sep :: (entryNameOf cfg i sub job).data =
        ((monthDirOf cfg).data ++ [cfg.sep]) ++ (entryNameOf cfg i sub job).data by simp,
      List.drop_left' (by rw [List.length_append]; rfl)]
  unfold dayNames childNames
  rw [List.filterMap_cons, List.filterMap_nil]
  rw [if_pos]
  · rw [hdrop]
    have hp : (fun n => (cfg.dateTag ++ "-").data.isPrefixOf n.data)
        (entryNameOf cfg i sub job) = true := entryNameOf_day_prefixed cfg i sub job
    show List.filter _ [entryNameOf cfg i sub job] = _
    rw [List.filter_cons, if_pos hp, List.filter_nil]
  · refine ⟨?_, ?_, ?_⟩
    · rw [List.isPrefixOf_iff_prefix, entryPathOf_data cfg hG, String.data_append]
      exact ⟨(entryNameOf cfg i sub job).data, by simp [sepStr]⟩
    · rw [hdrop]
      exact entryNameOf_ne_empty cfg i sub job
    · rw [hdrop]
      exact entryNameOf_sepFree cfg hG i sub job

/-- The first hundred calls of a day: after `k ≤ 100` calls the same-day
entries are exactly the allocator-formatted names numbered `1..k` (in call
order), the month bucket exists once a call has run, and call `j + 1`
returned the entry path numbered `j + 1`. -/
theorem trace_spec (cfg : Config) (fs0 : List String) (names : Nat → String × String)
    (hG : GoodCfg cfg) (hplat : cfg.shortPathPlatform = false)
    (hday : dayNames cfg fs0 = []) :
    ∀ k, k ≤ 100 →
      dayNames cfg (callSeqFS cfg fs0 names k) =
        (List.range k).map (fun j => entryNameOf cfg (j + 1) (names j).1 (names j).2) ∧
      (1 ≤ k → monthDirOf cfg ∈ callSeqFS cfg fs0 names k) ∧
      ∀ j, j < k → callResult cfg fs0 names j =
        .ok (entryPathOf cfg (j + 1) (names j).1 (names j).2) := by
  intro k
  induction k with
  | zero =>
    intro _
    exact ⟨by simpa using hday, fun h => absurd h (by omega), fun j hj => absurd hj (by omega)⟩
  | succ k ih =>
    intro hk1
    have hk99 : k ≤ 99 := by omega
    obtain ⟨ihday, _, ihres⟩ := ih (by omega)
    have hfs1day : dayNames cfg (ensureMonthDir cfg (callSeqFS cfg fs0 names k)) =
        (List.range k).map (fun j => entryNameOf cfg (j + 1) (names j).1 (names j).2) := by
      rw [dayNames_ensureMonthDir, ihday]
    have hn : nextNumberOf cfg (ensureMonthDir cfg (callSeqFS cfg fs0 names k)) =
        .ok (k + 1) := by
      rcases Nat.eq_zero_or_pos k with hz | hpos
      · subst hz
        have hgl : globDayPaths cfg (ensureMonthDir cfg (callSeqFS cfg fs0 names 0)) = [] := by
          unfold globDayPaths
          rw [hfs1day]
          rfl
        exact nextNumberOf_none cfg _ (by rw [hgl]; rfl)
      · apply nextNumberOf_of_dayNames cfg hG _
          ((List.range k).map (fun j => (j + 1, (names j).1, (names j).2))) k
          (names (k - 1)).1 (names (k - 1)).2
        · rw [hfs1day, List.map_map]
          rfl
        · have hsub : k - 1 + 1 = k := by omega
          refine List.mem_map.mpr ⟨k - 1, List.mem_range.mpr (by omega), ?_⟩
          show (k - 1 + 1, (names (k - 1)).1, (names (k - 1)).2) = _
          rw [hsub]
        · exact hk99
        · intro it hit hne
          rcases List.mem_map.mp hit with ⟨j, hj, rfl⟩
          show strLtB (entryNameOf cfg (j + 1) (names j).1 (names j).2).data
            (entryNameOf cfg k (names (k - 1)).1 (names (k - 1)).2).data = true
          replace hne : entryNameOf cfg (j + 1) (names j).1 (names j).2 ≠
            entryNameOf cfg k (names (k - 1)).1 (names (k - 1)).2 := hne
          have hjk : j < k := List.mem_range.mp hj
          by_cases hjeq : j + 1 = k
          · exfalso
            apply hne
            have hj2 : j = k - 1 := by omega
            rw [hjeq, hj2]
          · exact nameOf_lt_two_digit cfg _ _ _ _ (by omega) hk99
    have hnot' : (ensureMonthDir cfg (callSeqFS cfg fs0 names k)).contains
        (pathJoin cfg.sep (monthDirOf cfg)
          (jobDirPrefix0 cfg (k + 1) (sanitizeName (names k).1) ++
            strTake (sanitizeName (names k).2) 128)) = false := by
      rw [contains_eq_false_iff]
      intro hmem
      have hnm : entryNameOf cfg (k + 1) (names k).1 (names k).2 ∈
          dayNames cfg (ensureMonthDir cfg (callSeqFS cfg fs0 names k)) :=
        mem_dayNames_of_path_mem cfg hG _ _
          (entryNameOf_ne_empty cfg (k + 1) (names k).1 (names k).2)
          (entryNameOf_sepFree cfg hG (k + 1) (names k).1 (names k).2)
          (entryNameOf_day_prefixed cfg (k + 1) (names k).1 (names k).2) hmem
      rw [hfs1day] at hnm
      rcases List.mem_map.mp hnm with ⟨j, hj, heq⟩
      have hjk := List.mem_range.mp hj
      exact nameOf_ne cfg _ _ _ _ (by omega : j + 1 ≤ 100) (by omega : k + 1 ≤ 100)
        (by omega) heq
    have hres : (create_job_history_bundle_dir cfg (callSeqFS cfg fs0 names k)
        (names k).1 (names k).2).2 =
        .ok (entryPathOf cfg (k + 1) (names k).1 (names k).2) := by
      rw [create_eq]
      simp only [hn]
      rw [maxJobNameBudget_of_not_short cfg hplat, if_neg (by decide : ¬ (128 : Int) < 1),
        show ((128 : Int)).toNat = 128 from rfl, if_neg (by rw [hnot']; simp)]
      rfl
    have hfs' : callSeqFS cfg fs0 names (k + 1) =
        ensureMonthDir cfg (callSeqFS cfg fs0 names k) ++
          [entryPathOf cfg (k + 1) (names k).1 (names k).2] := by
      show (create_job_history_bundle_dir cfg (callSeqFS cfg fs0 names k)
        (names k).1 (names k).2).1 = _
      rw [create_eq]
      simp only [hn]
      rw [maxJobNameBudget_of_not_short cfg hplat, if_neg (by decide : ¬ (128 : Int) < 1),
        show ((128 : Int)).toNat = 128 from rfl, if_neg (by rw [hnot']; simp)]
      show pyMakedirs cfg.sep _ _ = _
      exact pyMakedirs_bundle cfg _ hG _
        (entryNameOf_sepFree cfg hG (k + 1) (names k).1 (names k).2)
        (mem_ensureMonthDir_self cfg _)
    refine ⟨?_, ?_, ?_⟩
    · rw [hfs', dayNames_append, dayNames_single_entry cfg hG, hfs1day,
        List.range_succ, List.map_append]
      rfl
    · intro _
      rw [hfs']
      exact List.mem_append_left _ (mem_ensureMonthDir_self cfg _)
    · intro j hj
      rcases Nat.lt_succ_iff_lt_or_eq.mp hj with h | h
      · exact ihres j h
      · subst h
        exact hres

/-- C10 counterexample: an externally placed same-day entry whose name does
not continue with digits after the date prefix (`"2023-01-15--x"`) does not
abort the allocation when it is not the lexicographically last entry — the
call still succeeds. -/
theorem claim_C10_counterexample :
    dayNames cfgDemo
        ["r", "r/2023-01", "r/2023-01/2023-01-15--x", "r/2023-01/2023-01-15-99-j"] =
      ["2023-01-15--x", "2023-01-15-99-j"] ∧
    pyInt (strTakeWhile (strDrop "2023-01-15--x" (cfgDemo.dateTag.length + 1))
      (fun c => c != '-')) = none ∧
    (create_job_history_bundle_dir cfgDemo
        ["r", "r/2023-01", "r/2023-01/2023-01-15--x", "r/2023-01/2023-01-15-99-j"]
        "s" "j").2 = .ok "r/2023-01/2023-01-15-100-s-j" := by
  refine ⟨by decide, by decide, by decide⟩

/-- C1 (amended): for a fixed clock date and history root, starting from a
filesystem with no same-day entries and on a platform without the short-path
clamp, `create_job_history_bundle_dir` assigns sequence numbers 1, 2, 3, …
in call order regardless of the submitter and job name strings — but only
for the first 100 calls of the day: call `j + 1` succeeds and returns the
path whose directory name carries sequence number `j + 1`, for every
`j < 100`. -/
theorem claim_C1_sequence_first_100 (cfg : Config) (fs0 : List String)
    (names : Nat → String × String) (hG : GoodCfg cfg)
    (hplat : cfg.shortPathPlatform = false) (hday : dayNames cfg fs0 = [])
    (j : Nat) (hj : j < 100) :
    callResult cfg fs0 names j =
      .ok (entryPathOf cfg (j + 1) (names j).1 (names j).2) :=
  (trace_spec cfg fs0 names hG hplat hday 100 (Nat.le_refl 100)).2.2 j hj

/-- Witness for C1: three concrete same-day calls under the demo environment
return the paths numbered `01`, `02` and `03` in call order. -/
theorem claim_C1_witness :
    callResult cfgDemo ["r"] emptyNames 0 = .ok "r/2023-01/2023-01-15-01--" ∧
    callResult cfgDemo ["r"] emptyNames 1 = .ok "r/2023-01/2023-01-15-02--" ∧
    callResult cfgDemo ["r"] emptyNames 2 = .ok "r/2023-01/2023-01-15-03--" :=
  ⟨(claim_C1_sequence_first_100 cfgDemo ["r"] emptyNames goodCfgDemo rfl (by decide) 0
      (by decide)).trans rfl,
    (claim_C1_sequence_first_100 cfgDemo ["r"] emptyNames goodCfgDemo rfl (by decide) 1
      (by decide)).trans rfl,
    (claim_C1_sequence_first_100 cfgDemo ["r"] emptyNames goodCfgDemo rfl (by decide) 2
      (by decide)).trans rfl⟩

/-- C1 counterexample: the claimed unbounded 1, 2, 3, … sequencing fails at
the 101st same-day call.  After 100 calls the month bucket holds the entry
numbered 100, but its widened three-digit field sorts lexicographically
before `99`, so the scan parses `99` from the lexicographically last entry
and computes 100 again instead of 101, and call 101 fails with
`FileExistsError` (`os.makedirs` with `exist_ok` left at its default) rather
than allocating sequence number 101. -/
theorem claim_C1_counterexample :
    entryNameOf cfgDemo 100 "" "" ∈
      dayNames cfgDemo (callSeqFS cfgDemo ["r"] emptyNames 100) ∧
    nextNumberOf cfgDemo
        (ensureMonthDir cfgDemo (callSeqFS cfgDemo ["r"] emptyNames 100)) = .ok 100 ∧
    callResult cfgDemo ["r"] emptyNames 100 = .error .alreadyExists := by
  obtain ⟨hday100, -, -⟩ :=
    trace_spec cfgDemo ["r"] emptyNames goodCfgDemo rfl (by decide) 100 (Nat.le_refl 100)
  have hfs1day : dayNames cfgDemo
      (ensureMonthDir cfgDemo (callSeqFS cfgDemo ["r"] emptyNames 100)) =
      (List.range 100).map
        (fun j => entryNameOf cfgDemo (j + 1) (emptyNames j).1 (emptyNames j).2) := by
    rw [dayNames_ensureMonthDir, hday100]
  have hmem100 : entryNameOf cfgDemo 100 "" "" ∈
      dayNames cfgDemo (callSeqFS cfgDemo ["r"] emptyNames 100) := by
    rw [hday100]
    exact List.mem_map.mpr ⟨99, List.mem_range.mpr (by omega), rfl⟩
  have hn : nextNumberOf cfgDemo
      (ensureMonthDir cfgDemo (callSeqFS cfgDemo ["r"] emptyNames 100)) = .ok 100 := by
    apply nextNumberOf_of_dayNames cfgDemo goodCfgDemo _
      ((List.range 100).map (fun j => (j + 1, (emptyNames j).1, (emptyNames j).2)))
      99 "" ""
    · rw [hfs1day, List.map_map]
      rfl
    · exact List.mem_map.mpr ⟨98, List.mem_range.mpr (by omega), rfl⟩
    · exact Nat.le_refl 99
    · intro it hit hne
      rcases List.mem_map.mp hit with ⟨j, hj, rfl⟩
      show strLtB (entryNameOf cfgDemo (j + 1) (emptyNames j).1 (emptyNames j).2).data
        (entryNameOf cfgDemo 99 "" "").data = true
      replace hne : entryNameOf cfgDemo (j + 1) (emptyNames j).1 (emptyNames j).2 ≠
        entryNameOf cfgDemo 99 "" "" := hne
      have hjr : j < 100 := List.mem_range.mp hj
      by_cases hj99 : j + 1 = 99
      · exfalso
        apply hne
        rw [hj99]
        rfl
      · by_cases hj100 : j + 1 = 100
        · rw [hj100]
          exact nameOf_100_lt cfgDemo "" "" "" ""
            (by omega : (11 : Nat) ≤ 99) (by omega : (99 : Nat) ≤ 99)
        · exact nameOf_lt_two_digit cfgDemo _ _ _ ""
            (by omega : j + 1 < 99) (by omega : (99 : Nat) ≤ 99)
  have hpathmem : entryPathOf cfgDemo 100 "" "" ∈
      ensureMonthDir cfgDemo (callSeqFS cfgDemo ["r"] emptyNames 100) :=
    path_mem_of_mem_dayNames cfgDemo goodCfgDemo _ (entryNameOf cfgDemo 100 "" "")
      (by rw [hfs1day]
          exact List.mem_map.mpr ⟨99, List.mem_range.mpr (by omega), rfl⟩)
  refine ⟨hmem100, hn, ?_⟩
  refine Eq.trans (callResult_eq cfgDemo ["r"] emptyNames 100) ?_
  apply alreadyExists_case cfgDemo (callSeqFS cfgDemo ["r"] emptyNames 100)
    (emptyNames 100).1 (emptyNames 100).2 100 hn
    (by rw [maxJobNameBudget_of_not_short cfgDemo rfl]; decide)
  rw [maxJobNameBudget_of_not_short cfgDemo rfl,
    show ((128 : Int)).toNat = 128 from rfl]
  exact List.elem_iff.mpr hpathmem

/-- C2 (amended): for every listing whose same-day entries are all
allocator-formatted names with sequence numbers at most `99` — so every
sequence field is at the fixed two-digit zero-padded width — the
lexicographically last entry carries the numerically maximal sequence
number `k` (ties between differently-named entries numbered `k` allowed),
and the sequence scan computes `k + 1`, the numeric maximum plus one.
(The original unconditional claim fails once a widened `≥ 100` field is
present: see the counterexample.) -/
theorem claim_C2_two_digit_max (cfg : Config) (fs : List String)
    (l : List (Nat × String × String)) (k : Nat) (sk jk : String)
    (hG : GoodCfg cfg)
    (hday : dayNames cfg fs = l.map (fun it => entryNameOf cfg it.1 it.2.1 it.2.2))
    (hmem : (k, sk, jk) ∈ l) (hk : k ≤ 99)
    (hmax : ∀ it ∈ l, it.1 ≤ k) :
    nextNumberOf cfg fs = .ok (k + 1) := by
  have hglob : globDayPaths cfg fs =
      l.map (fun it => entryPathOf cfg it.1 it.2.1 it.2.2) := by
    unfold globDayPaths
    rw [hday, List.map_map]
    rfl
  have hkmem : entryPathOf cfg k sk jk ∈
      (l.map (fun it => entryPathOf cfg it.1 it.2.1 it.2.2)).insertionSort pyStrLe :=
    (List.mem_insertionSort pyStrLe).mpr (List.mem_map.mpr ⟨(k, sk, jk), hmem, rfl⟩)
  have hsorted := List.sorted_insertionSort pyStrLe
    (l.map (fun it => entryPathOf cfg it.1 it.2.1 it.2.2))
  rcases hzz : ((l.map (fun it => entryPathOf cfg it.1 it.2.1 it.2.2)).insertionSort
      pyStrLe).getLast? with _ | z
  · exact absurd (List.getLast?_eq_none_iff.mp hzz) (List.ne_nil_of_mem hkmem)
  · have hzmem : z ∈ l.map (fun it => entryPathOf cfg it.1 it.2.1 it.2.2) :=
      (List.mem_insertionSort pyStrLe).mp (List.mem_of_getLast?_eq_some hzz)
    rcases List.mem_map.mp hzmem with ⟨⟨j, s2, j2⟩, hit, rfl⟩
    have hj : j = k := by
      rcases Nat.lt_or_ge j k with hjk | hge
      · exfalso
        have hlt : pyStrLt (entryPathOf cfg j s2 j2) (entryPathOf cfg k sk jk) :=
          pathOf_lt_of_nameB cfg hG s2 j2 sk jk
            (nameOf_lt_two_digit cfg s2 j2 sk jk hjk hk)
        rcases pairwise_getLast pyStrLe _ _ hsorted hzz _ hkmem with heq | hle
        · rw [heq] at hlt
          unfold pyStrLt at hlt
          rw [strLtB_irrefl] at hlt
          exact absurd hlt (by decide)
        · exact hle hlt
      · exact Nat.le_antisymm (hmax _ hit) hge
    subst hj
    have hlast : (pySorted (globDayPaths cfg fs)).getLast? =
        some (entryPathOf cfg j s2 j2) := by
      rw [hglob]
      exact hzz
    have hform := nextNumberOf_some cfg fs _ hlast
    have hbase : pyBasename cfg.sep (entryPathOf cfg j s2 j2) =
        entryNameOf cfg j s2 j2 := by
      rw [← mk_data (entryPathOf cfg j s2 j2)]
      exact pyBasename_of_shape cfg.sep (monthDirOf cfg) _
        (entryNameOf_sepFree cfg hG j s2 j2) _ (entryPathOf_data cfg hG j s2 j2)
    rw [hbase] at hform
    have hseg : strTakeWhile (strDrop (entryNameOf cfg j s2 j2) (cfg.dateTag.length + 1))
        (fun c => c != '-') = fmt2 j := by
      apply String.ext
      rw [strTakeWhile_data, strDrop_data, entryNameOf_data]
      exact seg_of_name cfg.dateTag.data j _
    rw [hseg, pyInt_fmt2 j hk] at hform
    exact hform

/-- Witness for C2: entries numbered 1, 2 and 2 — two differently-named
entries tied at the maximal number — and the scan computes 3. -/
theorem claim_C2_witness :
    nextNumberOf cfgDemo
        ["r", "r/2023-01", "r/2023-01/2023-01-15-01-A-x",
          "r/2023-01/2023-01-15-02-B-y", "r/2023-01/2023-01-15-02-C-"] =
      .ok 3 :=
  claim_C2_two_digit_max cfgDemo
    ["r", "r/2023-01", "r/2023-01/2023-01-15-01-A-x",
      "r/2023-01/2023-01-15-02-B-y", "r/2023-01/2023-01-15-02-C-"]
    [(1, "A", "x"), (2, "B", "y"), (2, "C", "")] 2 "B" "y" goodCfgDemo (by decide)
    (by decide) (by decide) (by decide)

/-- C2 counterexample: with allocator-formatted same-day entries numbered 99
and 100 (the `{number:02}` field widens to three digits at 100), the
lexicographically last entry carries 99, not the numeric maximum 100, and
the scan computes 100 instead of max-plus-one 101. -/
theorem claim_C2_counterexample :
    entryNameOf cfgDemo 100 "B" "" = "2023-01-15-100-B-" ∧
    entryNameOf cfgDemo 99 "A" "" = "2023-01-15-99-A-" ∧
    dayNames cfgDemo
        ["r", "r/2023-01", "r/2023-01/2023-01-15-100-B-",
          "r/2023-01/2023-01-15-99-A-"] =
      ["2023-01-15-100-B-", "2023-01-15-99-A-"] ∧
    (pySorted (globDayPaths cfgDemo
        ["r", "r/2023-01", "r/2023-01/2023-01-15-100-B-",
          "r/2023-01/2023-01-15-99-A-"])).getLast? =
      some "r/2023-01/2023-01-15-99-A-" ∧
    nextNumberOf cfgDemo
        ["r", "r/2023-01", "r/2023-01/2023-01-15-100-B-",
          "r/2023-01/2023-01-15-99-A-"] =
      .ok 100 := by
  refine ⟨by decide, by decide, by decide, by decide, by decide⟩

/-- Witness for C9: the suffix and double-hyphen conclusions of the two
conditional parts, instantiated at accepting concrete runs (a job name
sanitizing to the empty string, and an empty submitter name). -/
theorem claim_C9_witness :
    (sanitizeName "cli_job" ++ "-").data <:+ "r/2023-01/2023-01-15-01-cli_job-".data ∧
    ['-', '-'] <:+: "r/2023-01/2023-01-15-01--JobOne".data :=
  ⟨claim_C9_empty_names.1 cfgDemo ["r", "r/2023-01"] "cli_job" "@@"
      "r/2023-01/2023-01-15-01-cli_job-" (by decide) (by decide),
    claim_C9_empty_names.2.1 cfgDemo ["r", "r/2023-01"] "" "JobOne"
      "r/2023-01/2023-01-15-01--JobOne" (by decide) (by decide)⟩

end JobBundle
